import Mathlib

/-!
Verification development for the icelang language-server semantic analyzer.

The Rust sources are shallowly embedded as executable Lean definitions:
`src/ast.rs` (node classifier), `src/diagnostic.rs` (diagnostics model),
`src/declarations.rs` (symbol table) and `src/analyzer.rs` (tree walker).
Tree-sitter nodes are modelled as a rose tree carrying each node's raw kind
string, error/missing/named flags, source range, source-text slice and the
grammar field it occupies in its parent; parent and sibling navigation is
given by the list of ancestors (each with the child index taken) threaded
through the traversal.  Rust `unwrap()` on absent node fields is modelled by
`Option`: a `none` result is a panic of the walk.
-/

namespace Ice

/-- `lsp_types::Position` (line/character, both `u32`; widths never overflow
for the inputs considered, so `Nat` keeps the same order). -/
structure Position where
  line : Nat
  character : Nat
deriving DecidableEq, Repr

/-- The derived lexicographic `Ord` on `Position`: line first, then character
(Boolean, executable version). -/
def Position.ltb (p q : Position) : Bool :=
  p.line < q.line || (p.line == q.line && p.character < q.character)

/-- The derived lexicographic order on `Position` as a proposition. -/
def Position.Lt (p q : Position) : Prop :=
  p.line < q.line ∨ (p.line = q.line ∧ p.character < q.character)

/-- `lsp_types::Range`. -/
structure Range where
  start : Position
  «end» : Position
deriving DecidableEq, Repr

/-- Modelled from the spec: `utils::NIL_RANGE` is referenced by the analyzer
and the symbol table but its definition is not among the sources; it is the
placeholder range of builtin declarations and of the synthetic `self`
receiver, which the spec describes as carrying no position data. -/
def NIL_RANGE : Range := ⟨⟨0, 0⟩, ⟨0, 0⟩⟩

/-- `lsp_types::DiagnosticSeverity` (the three values the analyzer uses). -/
inductive Severity where
  | error
  | warning
  | hint
deriving DecidableEq, Repr

/-- `lsp_types::DiagnosticTag` (the one value the analyzer uses). -/
inductive DiagnosticTag where
  | unnecessary
deriving DecidableEq, Repr

/-- `lsp_types::Diagnostic`, restricted to the fields `diagnostic.rs` sets. -/
structure Diagnostic where
  range : Range
  severity : Severity
  source : String
  message : String
  tags : Option (List DiagnosticTag)
deriving DecidableEq, Repr

/-- `diagnostic.rs`: `ErrorKind`.  The variant `invalidName` is modelled from
the spec: `ErrorKind::InvalidName` is used by `analyzer.rs` (reserved keyword
used as identifier, §7) but absent from `diagnostic.rs`'s enumeration in the
sources; its rendered message is not specified and is chosen fresh here. -/
inductive ErrorKind where
  | syntaxError
  | unexpected
  | expectedExpr
  | expectedField
  | missing (s : String)
  | undelimitedStr
  | redeclaration (s : String)
  | undeclared (s : String)
  | continueOutside
  | breakOutside
  | returnOutside
  | invalidName
deriving DecidableEq, Repr

/-- `diagnostic.rs`: `impl ToString for ErrorKind`. -/
def ErrorKind.toMessage : ErrorKind → String
  | .syntaxError => "Syntax error"
  | .unexpected => "Unexpected token"
  | .expectedExpr => "Expected expression"
  | .expectedField => "Expected field name"
  | .undelimitedStr => "Undelimited string"
  | .missing s => "Missing '" ++ s ++ "'"
  | .redeclaration s => "Redeclaring existing identifier '" ++ s ++ "'"
  | .undeclared s => "Undeclared identifier '" ++ s ++ "'"
  | .continueOutside => "continue outside of a loop"
  | .breakOutside => "break outside of a loop"
  | .returnOutside => "return outside of a function"
  | .invalidName => "Invalid name"

/-- `diagnostic.rs`: `error(kind, range)`. -/
def error (kind : ErrorKind) (range : Range) : Diagnostic :=
  { range, severity := .error, source := "icelang_ls", message := kind.toMessage, tags := none }

/-- `diagnostic.rs`: `WarnKind`. -/
inductive WarnKind where
  | unusedResult
deriving DecidableEq, Repr

/-- `diagnostic.rs`: `impl ToString for WarnKind`. -/
def WarnKind.toMessage : WarnKind → String
  | .unusedResult => "Unused result"

/-- `diagnostic.rs`: `warn(kind, range)`. -/
def warn (kind : WarnKind) (range : Range) : Diagnostic :=
  { range, severity := .warning, source := "icelang_ls", message := kind.toMessage, tags := none }

/-- `diagnostic.rs`: `HintKind`. -/
inductive HintKind where
  | unreachable
  | emptyMatch
  | unused (s : String)
  | assign
deriving DecidableEq, Repr

/-- `diagnostic.rs`: `impl ToString for HintKind`. -/
def HintKind.toMessage : HintKind → String
  | .unreachable => "Unreachable code"
  | .emptyMatch => "Empty match expression"
  | .unused s => "'" ++ s ++ "' is never used"
  | .assign => "Consider assigning the resulting value"

/-- `diagnostic.rs`: `hint(kind, range)` (every hint kind is tagged
`UNNECESSARY`). -/
def hint (kind : HintKind) (range : Range) : Diagnostic :=
  { range, severity := .hint, source := "icelang_ls", message := kind.toMessage,
    tags := some [.unnecessary] }

/-- Discriminates the rendered `Unused(name)` hint among the diagnostics the
analyzer constructs: it is the only one whose severity is `Hint` and whose
rendered message starts with an apostrophe (`Unused` renders as
`'name' is never used`, while the other hint messages start with `C`, `E` or
`U`, and errors and warnings carry other severities). -/
def isUnusedHint (d : Diagnostic) : Bool :=
  (d.severity == Severity.hint) && (d.message.data.head? == some '\'')

/-- `ast.rs`: `NodeType`. -/
inductive NodeType where
  | stmtBlock
  | stmtVarDecl
  | stmtFuncDecl
  | stmtLoop
  | stmtWhile
  | stmtFor
  | stmtContinue
  | stmtBreak
  | stmtReturn
  | stmtExpression
  | exprLiteral
  | exprGroup
  | exprIdentifier
  | exprArray
  | exprObject
  | exprUnary
  | exprBinary
  | exprIndex
  | exprField
  | exprIf
  | exprMatch
  | exprCall
  | exprLambda
  | args
  | prop
  | iterator
  | error
  | unnamed
deriving DecidableEq, Repr

/-- `ast.rs`: `impl From<&Node> for NodeType`, as a function of the node's raw
kind string.  NOTE: this transcribes the source faithfully, including the arm
`"stmt_expression" => NodeType::StmtReturn` at `ast.rs:50`. -/
def NodeType.fromKind : String → NodeType
  | "stmt_block" => .stmtBlock
  | "stmt_var_decl" => .stmtVarDecl
  | "stmt_func_decl" => .stmtFuncDecl
  | "stmt_loop" => .stmtLoop
  | "stmt_while" => .stmtWhile
  | "stmt_for" => .stmtFor
  | "stmt_continue" => .stmtContinue
  | "stmt_break" => .stmtBreak
  | "stmt_return" => .stmtReturn
  | "stmt_expression" => .stmtReturn
  | "expr_literal" => .exprLiteral
  | "expr_group" => .exprGroup
  | "expr_identifier" => .exprIdentifier
  | "expr_array" => .exprArray
  | "expr_object" => .exprObject
  | "expr_unary" => .exprUnary
  | "expr_binary" => .exprBinary
  | "expr_index" => .exprIndex
  | "expr_field" => .exprField
  | "expr_if" => .exprIf
  | "expr_match" => .exprMatch
  | "expr_call" => .exprCall
  | "expr_lambda" => .exprLambda
  | "args" => .args
  | "prop" => .prop
  | "iterator" => .iterator
  | "ERROR" => .error
  | _ => .unnamed

/-- `ast.rs`: `LOOP_NODE`. -/
def LOOP_NODE : List NodeType := [.stmtFor, .stmtWhile, .stmtLoop]

/-- `ast.rs`: `FUNCTION_NODE`. -/
def FUNCTION_NODE : List NodeType := [.stmtFuncDecl, .exprLambda]

/-- `builtins.rs`: `KEYWORDS`. -/
def KEYWORDS : List String :=
  ["null", "true", "false", "set", "function", "lambda", "for", "in", "to",
   "while", "loop", "if", "else", "match"]

/-- `builtins.rs`: `BuiltinFn`. -/
structure BuiltinFn where
  name : String
  args : List String
  doc : String
deriving DecidableEq, Repr

/-- `builtins.rs`: `BUILTIN_FUNCTION`. -/
def BUILTIN_FUNCTION : List BuiltinFn :=
  [⟨"print", ["args"],
    "Print arguments to standard output. Example: ``` print('Hello World')```"⟩,
   ⟨"readline", [],
    "Read from standard input. Example: ```set input = readline()```"⟩,
   ⟨"import", ["value"],
    "Import value from a module, Example: ``` set module = import('module')```"⟩,
   ⟨"export", ["value"],
    "Returns a value from a script. Example: ```export(my_object)```"⟩,
   ⟨"type_of", ["value"],
    "Returns the type of the argument. Example: ```type_of('string') -- string```"⟩,
   ⟨"length", ["value"],
    "Returns the length of iterable types. Example: ```length([1, 2, 3]) -- 3```"⟩,
   ⟨"parse_number", ["number"],
    "Parse string to number. Example: ```parse_number('2') -- 2```"⟩,
   ⟨"sqrt", ["number"], "Returns the square root of a number"⟩,
   ⟨"floor", ["number"], "Returns the largest integer less than or equal to a number"⟩,
   ⟨"round", ["number"], "Rounds a number to the nearest integer"⟩,
   ⟨"ceil", ["number"], "Returns the smallest integer greater than or equal to a number"⟩,
   ⟨"pow", ["number", "exp"], "Raises the number to the power of exp"⟩]

/-- `declarations.rs`: `DeclarationKind`.  The analyzer (`analyzer.rs`) and
the completion handler (`backend.rs`) construct and match the `Variable`
variant without a payload, which is the form embedded here. -/
inductive DeclarationKind where
  | variable
  | function (args : List String)
deriving DecidableEq, Repr

/-- `declarations.rs`: `DeclarationKind::is_function`. -/
def DeclarationKind.is_function : DeclarationKind → Bool
  | .function _ => true
  | _ => false

/-- `declarations.rs`: `Declaration` (documentation is kept as its markdown
text). -/
structure Declaration where
  name : String
  name_range : Range
  kind : DeclarationKind
  doc : Option String
  range : Range
  scope : Option Range
  used : Bool
  builtin : Bool
  param : Bool
deriving DecidableEq, Repr

/-- `declarations.rs`: `impl PartialEq for Declaration` — structural equality
is equality of `name` and `scope` only. -/
def Declaration.peq (a b : Declaration) : Bool :=
  a.name == b.name && a.scope == b.scope

/-- `declarations.rs`: `Declaration::new`. -/
def Declaration.new (name : String) (kind : DeclarationKind) (range : Range)
    (name_range : Range) (scope : Option Range) (is_param : Bool) : Declaration :=
  { name, kind, doc := none, range, name_range, scope,
    used := false, builtin := false, param := is_param }

/-- `declarations.rs`: `impl From<&BuiltinFn> for Declaration`. -/
def Declaration.fromBuiltin (value : BuiltinFn) : Declaration :=
  { name := value.name, kind := .function value.args, doc := some value.doc,
    range := NIL_RANGE, name_range := NIL_RANGE, scope := none,
    used := true, builtin := true, param := false }

/-- `declarations.rs`: `DeclarationMap`.  `std::collections::HashMap` is
modelled as an association list with distinct keys; lookups are by key, so
only the iteration order of `values()` (which a `HashMap` leaves unspecified
and varies per instance) is additionally modelled, by the explicit key-order
argument of `values_in` below. -/
structure DeclarationMap where
  map : List (String × List Declaration)
deriving DecidableEq, Repr

/-- Key lookup (`HashMap::get` / `get_mut`'s bucket access). -/
def DeclarationMap.lookup (m : DeclarationMap) (name : String) : Option (List Declaration) :=
  (m.map.find? (fun e => e.1 == name)).map (·.2)

/-- Replace the bucket stored under `name`. -/
def DeclarationMap.update (m : DeclarationMap) (name : String)
    (bucket : List Declaration) : DeclarationMap :=
  ⟨m.map.map (fun e => if e.1 == name then (e.1, bucket) else e)⟩

/-- The map's keys, in entry order. -/
def DeclarationMap.keys (m : DeclarationMap) : List String :=
  m.map.map (·.1)

/-- `declarations.rs`: `DeclarationMap::new` — seeded with one declaration per
builtin function. -/
def DeclarationMap.new : DeclarationMap :=
  ⟨BUILTIN_FUNCTION.map (fun b => (b.name, [Declaration.fromBuiltin b]))⟩

/-- `declarations.rs`: `DeclarationMap::insert` — returns `false` (no
mutation) when the name's bucket already contains a `PartialEq`-equal
declaration, otherwise appends and returns `true`. -/
def DeclarationMap.insert (m : DeclarationMap) (value : Declaration) :
    Bool × DeclarationMap :=
  let name := value.name
  match m.lookup name with
  | some declarations =>
    if declarations.any (fun d => d.peq value) then (false, m)
    else (true, m.update name (declarations ++ [value]))
  | none => (true, ⟨m.map ++ [(name, [value])]⟩)

/-- `declarations.rs`: `is_declaration_at` — the position-based visibility
test: functions are visible outside `[range.start, range.end]` (hoisting),
variables strictly after `range.end`; a set `scope` additionally confines
visibility strictly inside it. -/
def is_declaration_at (decl : Declaration) (position : Position) : Bool :=
  let condition :=
    match decl.kind.is_function with
    | true => Position.ltb position decl.range.start || Position.ltb decl.range.«end» position
    | false => Position.ltb decl.range.«end» position
  let inside_scope :=
    match decl.scope with
    | some scope => Position.ltb scope.start position && Position.ltb position scope.«end»
    | none => true
  condition && inside_scope

/-- Mark the first declaration of the bucket that is visible at `position` as
used (the in-place `decl.used = true` of `is_declared_at` / `get_mut`). -/
def markFirstUsed : List Declaration → Position → List Declaration
  | [], _ => []
  | d :: rest, position =>
    if is_declaration_at d position then { d with used := true } :: rest
    else d :: markFirstUsed rest position

/-- `analyzer.rs`: `Identifier` — a queued identifier reference. -/
structure Identifier where
  name : String
  range : Range
deriving DecidableEq, Repr

/-- `declarations.rs`: `IdentiferData` (the sources only show its use sites:
name, range and a `used` flag controlling whether resolution marks the
declaration). -/
structure IdentiferData where
  name : String
  range : Range
  used : Bool
deriving DecidableEq, Repr

/-- `declarations.rs`: `DeclarationMap::is_declared_at` — scans the name's
bucket; the first declaration visible at the reference's end position
resolves it, and is marked used when `identifer.used` is set. -/
def DeclarationMap.is_declared_at (m : DeclarationMap) (identifer : IdentiferData) :
    Bool × DeclarationMap :=
  match m.lookup identifer.name with
  | none => (false, m)
  | some declarations =>
    if declarations.any (fun d => is_declaration_at d identifer.range.«end») then
      (true,
       if identifer.used then
         m.update identifer.name (markFirstUsed declarations identifer.range.«end»)
       else m)
    else (false, m)

/-- Modelled from the spec: `DeclarationMap::get_mut`, the resolver called by
`Analyzer::resolve_identifiers`, is absent from the sources.  Per the spec
(§4.2 `resolve` / `resolve_mut`) it scans the name's bucket with the
visibility test `is_declaration_at` at the reference position and the first
match is marked `used = true`; this is `is_declared_at` with marking on. -/
def DeclarationMap.get_mut (m : DeclarationMap) (ident : Identifier) :
    Bool × DeclarationMap :=
  m.is_declared_at ⟨ident.name, ident.range, true⟩

/-- `HashMap::values()` in entry order (the canonical iteration order of the
model). -/
def DeclarationMap.values (m : DeclarationMap) : List (List Declaration) :=
  m.map.map (·.2)

/-- `HashMap::values()` under an explicit key iteration order `σ` (a real
`HashMap` iterates its buckets in an instance-dependent, unspecified
order). -/
def DeclarationMap.values_in (m : DeclarationMap) (σ : List String) :
    List (List Declaration) :=
  σ.filterMap m.lookup

/-- `declarations.rs`: `DeclarationMap::get_unused` under an explicit
iteration order. -/
def DeclarationMap.get_unused_in (m : DeclarationMap) (σ : List String) :
    List Declaration :=
  (m.values_in σ).foldl (fun acc ds => acc ++ ds.filter (fun d => d.used == false)) []

/-- `declarations.rs`: `DeclarationMap::get_unused` — every declaration whose
`used` flag is still false, in bucket iteration order. -/
def DeclarationMap.get_unused (m : DeclarationMap) : List Declaration :=
  m.values.foldl (fun acc ds => acc ++ ds.filter (fun d => d.used == false)) []

/-- `declarations.rs`: `DeclarationMap::get_nearest` — the linear scan keeping
the applicable declaration whose `range.end` is largest (a strictly larger
`range.end` displaces the held one). -/
def nearest_step (position : Position) (nearest : Option Declaration)
    (decl : Declaration) : Option Declaration :=
  if is_declaration_at decl position then
    match nearest with
    | some value =>
      if Position.ltb value.range.«end» decl.range.«end» then some decl else some value
    | none => some decl
  else nearest

def get_nearest (declarations : List Declaration) (position : Position) :
    Option Declaration :=
  declarations.foldl (nearest_step position) none

/-- `declarations.rs`: `DeclarationMap::get_declared_at` — one nearest
applicable declaration per bucket, in bucket iteration order. -/
def DeclarationMap.get_declared_at (m : DeclarationMap) (position : Position) :
    List Declaration :=
  m.values.foldl
    (fun result ds =>
      match get_nearest ds position with
      | some nearest => result ++ [nearest]
      | none => result)
    []

/-- All declarations of the map, in entry order. -/
def DeclarationMap.allDecls (m : DeclarationMap) : List Declaration :=
  m.values.flatten

/-- The data a tree-sitter node exposes to the analyzer: raw kind string, the
error / missing / named flags, the source range, the node's source-text slice
(`utf8_text`) and the grammar field it occupies in its parent. -/
structure NodeInfo where
  kind : String
  isError : Bool
  isMissing : Bool
  isNamed : Bool
  range : Range
  text : String
  field : Option String
deriving DecidableEq, Repr

/-- A tree-sitter syntax (sub)tree: a node with all of its children (named and
anonymous alike), in source order. -/
inductive Node where
  | mk (info : NodeInfo) (children : List Node)

def Node.info : Node → NodeInfo
  | .mk i _ => i

def Node.children : Node → List Node
  | .mk _ cs => cs

def Node.kind (n : Node) : String := n.info.kind

def Node.range (n : Node) : Range := n.info.range

def Node.text (n : Node) : String := n.info.text

/-- `Node::named_children`. -/
def Node.namedChildren (n : Node) : List Node :=
  n.children.filter (fun c => c.info.isNamed)

/-- `Node::named_child(i)`. -/
def Node.namedChild (n : Node) (i : Nat) : Option Node :=
  n.namedChildren.get? i

/-- `Node::named_child_count()`. -/
def Node.namedChildCount (n : Node) : Nat :=
  n.namedChildren.length

/-- `Node::child_by_field_name(f)` — the first child occupying field `f`. -/
def Node.childByField (n : Node) (f : String) : Option Node :=
  n.children.find? (fun c => c.info.field == some f)

/-- Index (into the full child list) of the first child occupying field `f`;
comparing this index with a child's own index is the model of tree-sitter's
node-identity equality `parent.child_by_field_name(f) == Some(*node)`. -/
def Node.childFieldIdx (n : Node) (f : String) : Option Nat :=
  n.children.findIdx? (fun c => c.info.field == some f)

/-- Index (into the full child list) of the last named child; comparing it
with a child's index models
`parent.named_child(parent.named_child_count() - 1) == Some(*node)`. -/
def Node.lastNamedIdx (n : Node) : Option Nat :=
  n.children.enum.foldl
    (fun acc e => if e.2.info.isNamed then some e.1 else acc) none

/-- The ancestors of the node under evaluation, nearest first, each paired
with the index of the child through which the walk descended: the model of
tree-sitter's upward (`parent`) and sideways (`next_named_sibling`)
navigation. -/
abbrev Ctx := List (Node × Nat)

/-- `analyzer.rs`: the mutable state of `struct Analyzer` (the borrowed
source and tree are carried by the nodes themselves). -/
structure Analyzer where
  diagnostics : List Diagnostic
  declarations : DeclarationMap
  identifiers : List Identifier
deriving DecidableEq, Repr

/-- `self.diagnostics.push(d)`. -/
def Analyzer.push (st : Analyzer) (d : Diagnostic) : Analyzer :=
  { st with diagnostics := st.diagnostics ++ [d] }

/-- Two consecutive `self.diagnostics.push` calls. -/
def Analyzer.push2 (st : Analyzer) (d e : Diagnostic) : Analyzer :=
  { st with diagnostics := st.diagnostics ++ [d, e] }

/-- Replace the symbol table (a mutation of `self.declarations`). -/
def Analyzer.withDecls (st : Analyzer) (m : DeclarationMap) : Analyzer :=
  { st with declarations := m }

/-- `self.identifiers.push(i)`. -/
def Analyzer.pushIdent (st : Analyzer) (i : Identifier) : Analyzer :=
  { st with identifiers := st.identifiers ++ [i] }

/-- No diagnostic of the state is shaped like an `Unused` hint (the walk and
the resolution pass keep this invariant; only `report_unused` emits such
hints). -/
def Analyzer.clean (st : Analyzer) : Bool :=
  st.diagnostics.all (fun d => !isUnusedHint d)

/-- `analyzer.rs`: `AnalyzeResult`. -/
structure AnalyzeResult where
  diagnostics : List Diagnostic
  declarations : DeclarationMap
deriving DecidableEq, Repr

/-- `analyzer.rs`: `has_parent` — whether some ancestor's classified type is
in `parent_types`. -/
def has_parent (ctx : Ctx) (parent_types : List NodeType) : Bool :=
  ctx.any (fun e => parent_types.contains (NodeType.fromKind e.1.kind))

/-- `analyzer.rs`: `skip_identifer` — identifier occurrences that are
declaration-site names (or otherwise not references) are not queued. -/
def skip_identifer (node : Node) (ctx : Ctx) : Bool :=
  if node.range.start == node.range.«end» then true
  else
    match ctx with
    | [] => false
    | (parent, idx) :: rest =>
      match NodeType.fromKind parent.kind with
      | .stmtFuncDecl => true
      | .iterator => true
      | .stmtVarDecl => parent.childFieldIdx "name" == some idx
      | .prop => parent.childFieldIdx "name" == some idx
      | .args =>
        match rest with
        | (grandparent, _) :: _ => NodeType.fromKind grandparent.kind != .exprCall
        | [] => false
      | .exprField => parent.childFieldIdx "field" == some idx
      | _ => false

/-- `analyzer.rs`: `Analyzer::handle_syntax_error` — a diagnostic for error
nodes and one for missing nodes; never aborts. -/
def handle_syntax_error (node : Node) (ctx : Ctx) (st : Analyzer) : Analyzer :=
  let st :=
    if node.info.isError then
      let range := node.range
      let e :=
        match node.namedChild 0 with
        | some child =>
          match NodeType.fromKind child.kind with
          | .exprIdentifier => error .syntaxError child.range
          | _ => error .unexpected child.range
        | none => error .syntaxError range
      st.push e
    else st
  if node.info.isMissing then
    let range := node.range
    let e :=
      match NodeType.fromKind node.kind with
      | .exprIdentifier =>
        let text := (ctx.head?).map (fun e => e.1.text)
        let kind := if text == some "." then ErrorKind.expectedField else ErrorKind.expectedExpr
        error kind range
      | _ => error (.missing node.kind) range
    st.push e
  else st

/-- The `unused` computation of `eval_expression`: whether the inner
expression's value is definitely discarded — a literal, identifier, unary, or
non-assignment binary expression (`none` models the `unwrap` panic on a
binary expression without an `operator` field). -/
def expression_unused (child : Node) : Option Bool :=
  match NodeType.fromKind child.kind with
  | .exprBinary =>
    (child.childByField "operator").map (fun operator_node => operator_node.text != "=")
  | .exprUnary => some true
  | .exprLiteral => some true
  | .exprIdentifier => some true
  | _ => some false

/-- `analyzer.rs`: `Analyzer::eval_expression` — unused-result check on an
expression statement: warn unless the statement is the final named child of
its enclosing block (the implicitly returned value). -/
def eval_expression (node : Node) (ctx : Ctx) (st : Analyzer) : Option Analyzer :=
  match node.namedChild 0 with
  | none => some st
  | some child =>
    let return_value :=
      match ctx with
      | (parent, idx) :: _ =>
        NodeType.fromKind parent.kind == .stmtBlock && parent.lastNamedIdx == some idx
      | [] => false
    match expression_unused child with
    | none => none
    | some unused =>
      if !return_value && unused then
        some (st.push2 (warn .unusedResult node.range) (hint .assign node.range))
      else some st

/-- `analyzer.rs`: `Analyzer::eval_literal` — a string literal spanning
several lines yields two `UndelimitedStr` errors. -/
def eval_literal (node : Node) (st : Analyzer) : Analyzer :=
  match node.namedChild 0 with
  | none => st
  | some child =>
    if child.kind == "string" then
      let start := child.range.start
      let «end» := child.range.«end»
      if start.line != «end».line then
        st.push2 (error .undelimitedStr ⟨start, start⟩) (error .undelimitedStr ⟨«end», «end»⟩)
      else st
    else st

/-- `analyzer.rs`: `Analyzer::get_function_args` — parameter names and their
declarations (scoped to the body), plus the synthetic `self` receiver;
`none` models the `unwrap` panics on a missing `body` or `args` field. -/
def get_function_args (node : Node) : Option (List String × List Declaration) :=
  match node.childByField "body" with
  | none => none
  | some body =>
    match node.childByField "args" with
    | none => none
    | some args =>
      let range := args.range
      let collected :=
        args.namedChildren.foldl
          (fun (acc : List String × List Declaration) arg =>
            if arg.info.isError then acc
            else
              let name := arg.text
              let name_range := arg.range
              let decl := Declaration.new name .variable range name_range
                (some body.range) true
              (acc.1 ++ [name], acc.2 ++ [decl]))
          ([], [])
      let selfDecl := Declaration.new "self" .variable NIL_RANGE NIL_RANGE
        (some body.range) true
      some (collected.1, collected.2 ++ [selfDecl])

/-- `analyzer.rs`: `Analyzer::eval_lambda` — registers only the lambda's
parameter declarations. -/
def eval_lambda (node : Node) (st : Analyzer) : Option Analyzer :=
  match get_function_args node with
  | none => none
  | some (_, args_decl) =>
    some (st.withDecls (args_decl.foldl (fun m decl => (m.insert decl).2) st.declarations))

/-- The enclosing-scope computation shared by `eval_var_decl` and
`eval_func_decl`: the parent block's range when the parent is a block, else
module scope (`node.parent()` is the nearest ancestor in the context). -/
def var_decl_scope (ctx : Ctx) : Option Range :=
  match ctx with
  | (parent, _) :: _ =>
    if NodeType.fromKind parent.kind == .stmtBlock then some parent.range else none
  | [] => none

/-- The declaration `eval_var_decl` builds: for a lambda initializer the
visibility range runs to the lambda body's start (`none` models the `unwrap`
panic on a lambda without a `body` field); otherwise it is the whole
statement's range. -/
def var_decl_declaration (node : Node) (name : String) (name_range : Range)
    (scope : Option Range) (value_node : Node) : Option Declaration :=
  match NodeType.fromKind value_node.kind with
  | .exprLambda =>
    (value_node.childByField "body").map (fun body =>
      Declaration.new name .variable ⟨node.range.start, body.range.start⟩ name_range scope false)
  | _ => some (Declaration.new name .variable node.range name_range scope false)

/-- The shared tail of both declaration handlers: insert, and report
`Redeclaration` at the name's range when the insert is rejected. -/
def insert_or_report (st : Analyzer) (decl : Declaration) (name : String)
    (name_range : Range) : Analyzer :=
  let (ok, m) := st.declarations.insert decl
  if ok then st.withDecls m
  else (st.withDecls m).push (error (.redeclaration name) name_range)

/-- `analyzer.rs`: `Analyzer::eval_var_decl` — registers a variable
declaration; `none` models the `unwrap` panics on a missing `name` or `value`
field (or a lambda initializer without a `body`). -/
def eval_var_decl (node : Node) (ctx : Ctx) (st : Analyzer) : Option Analyzer :=
  match node.childByField "name" with
  | none => none
  | some name_node =>
    let name := name_node.text
    let name_range := name_node.range
    let st := if KEYWORDS.contains name then st.push (error .invalidName name_range) else st
    match node.childByField "value" with
    | none => none
    | some value_node =>
      let scope := var_decl_scope ctx
      match var_decl_declaration node name name_range scope value_node with
      | none => none
      | some declaration => some (insert_or_report st declaration name name_range)

/-- `analyzer.rs`: `Analyzer::eval_func_decl` — registers the parameter
declarations and the (hoisted) function declaration whose visibility range is
`[header start, body start)`. -/
def eval_func_decl (node : Node) (ctx : Ctx) (st : Analyzer) : Option Analyzer :=
  match node.childByField "name" with
  | none => none
  | some name_node =>
    let name := name_node.text
    let name_range := name_node.range
    let st := if KEYWORDS.contains name then st.push (error .invalidName name_range) else st
    match node.childByField "body" with
    | none => none
    | some block =>
      match get_function_args node with
      | none => none
      | some (names, args_decl) =>
        let kind := DeclarationKind.function names
        let range : Range := ⟨node.range.start, block.range.start⟩
        let scope := var_decl_scope ctx
        let st := st.withDecls
          (args_decl.foldl (fun m decl => (m.insert decl).2) st.declarations)
        let decl := Declaration.new name kind range name_range scope false
        some (insert_or_report st decl name name_range)

/-- `analyzer.rs`: `Analyzer::eval_identifier` — queues a reference unless
`skip_identifer` rules it out. -/
def eval_identifier (node : Node) (ctx : Ctx) (st : Analyzer) : Analyzer :=
  if !skip_identifer node ctx then st.pushIdent ⟨node.text, node.range⟩
  else st

/-- `analyzer.rs`: `Analyzer::next_unreachable` — one `Unreachable` hint
spanning from the first following named sibling's start to the maximum end
among all of them. -/
def next_unreachable (_node : Node) (ctx : Ctx) (st : Analyzer) : Analyzer :=
  match ctx with
  | [] => st
  | (parent, idx) :: _ =>
    let siblings := (parent.children.drop (idx + 1)).filter (fun c => c.info.isNamed)
    match siblings with
    | [] => st
    | first :: rest =>
      let start := first.range.start
      let «end» := rest.foldl
        (fun acc c => if Position.ltb acc c.range.«end» then c.range.«end» else acc)
        first.range.«end»
      st.push (hint .unreachable ⟨start, «end»⟩)

/-- `analyzer.rs`: `Analyzer::eval_continue`. -/
def eval_continue (node : Node) (ctx : Ctx) (st : Analyzer) : Analyzer :=
  if has_parent ctx LOOP_NODE then next_unreachable node ctx st
  else st.push (error .continueOutside node.range)

/-- `analyzer.rs`: `Analyzer::eval_break`. -/
def eval_break (node : Node) (ctx : Ctx) (st : Analyzer) : Analyzer :=
  if has_parent ctx LOOP_NODE then next_unreachable node ctx st
  else st.push (error .breakOutside node.range)

/-- `analyzer.rs`: `Analyzer::eval_return`. -/
def eval_return (node : Node) (ctx : Ctx) (st : Analyzer) : Analyzer :=
  if has_parent ctx FUNCTION_NODE then next_unreachable node ctx st
  else st.push (error .returnOutside node.range)

/-- `analyzer.rs`: `Analyzer::eval_for_loop` — each iterator binding becomes a
variable declaration scoped to the loop body; `none` models the `unwrap`
panics on a missing `iterator` or `body` field. -/
def eval_for_loop (node : Node) (st : Analyzer) : Option Analyzer :=
  match node.childByField "iterator" with
  | none => none
  | some iterator =>
    match node.childByField "body" with
    | none => none
    | some body =>
      let m := iterator.namedChildren.foldl
        (fun m child =>
          (m.insert (Declaration.new child.text .variable iterator.range
            child.range (some body.range) false)).2)
        st.declarations
      some (st.withDecls m)

/-- `analyzer.rs`: `Analyzer::eval_match` — an empty match body yields an
`EmptyMatch` hint; `none` models the `unwrap` panic on a missing `body`. -/
def eval_match (node : Node) (st : Analyzer) : Option Analyzer :=
  match node.childByField "body" with
  | none => none
  | some body =>
    if body.namedChildCount == 0 then some (st.push (hint .emptyMatch node.range))
    else some st

mutual

/-- `analyzer.rs`: `Analyzer::eval_node` — per-node error handling, category
dispatch (through `NodeType::from`), then recursion into every child. -/
def evalNode : Node → Ctx → Analyzer → Option Analyzer
  | .mk info cs, ctx, st =>
    let node := Node.mk info cs
    let st := handle_syntax_error node ctx st
    let dispatched :=
      match NodeType.fromKind info.kind with
      | .stmtExpression => eval_expression node ctx st
      | .stmtVarDecl => eval_var_decl node ctx st
      | .stmtFuncDecl => eval_func_decl node ctx st
      | .stmtFor => eval_for_loop node st
      | .stmtContinue => some (eval_continue node ctx st)
      | .stmtBreak => some (eval_break node ctx st)
      | .stmtReturn => some (eval_return node ctx st)
      | .exprMatch => eval_match node st
      | .exprLambda => eval_lambda node st
      | .exprIdentifier => some (eval_identifier node ctx st)
      | .exprLiteral => some (eval_literal node st)
      | _ => some st
    match dispatched with
    | none => none
    | some st => evalChildren cs 0 (Node.mk info cs) ctx st

/-- The child loop of `eval_node`, tracking each child's index for sibling
and identity navigation. -/
def evalChildren : List Node → Nat → Node → Ctx → Analyzer → Option Analyzer
  | [], _, _, _, st => some st
  | c :: rest, i, parent, ctx, st =>
    match evalNode c ((parent, i) :: ctx) st with
    | none => none
    | some st => evalChildren rest (i + 1) parent ctx st

end

/-- `analyzer.rs`: `Analyzer::resolve_identifiers` — each queued reference is
resolved against the symbol table; failures yield `Undeclared`. -/
def resolve_identifiers (st : Analyzer) : Analyzer :=
  st.identifiers.foldl
    (fun st ident =>
      let (found, m) := st.declarations.get_mut ident
      if found then st.withDecls m
      else (st.withDecls m).push (error (.undeclared ident.name) ident.range))
    st

/-- `analyzer.rs`: `Analyzer::report_unused` under an explicit bucket
iteration order. -/
def report_unused_in (σ : List String) (st : Analyzer) : Analyzer :=
  (st.declarations.get_unused_in σ).foldl
    (fun st u =>
      if u.name != "_" && u.name != "self" then st.push (hint (.unused u.name) u.name_range)
      else st)
    st

/-- `analyzer.rs`: `Analyzer::report_unused` — an `Unused` hint for every
still-unused declaration except the discard placeholder and `self`. -/
def report_unused (st : Analyzer) : Analyzer :=
  st.declarations.get_unused.foldl
    (fun st u =>
      if u.name != "_" && u.name != "self" then st.push (hint (.unused u.name) u.name_range)
      else st)
    st

/-- `analyzer.rs`: the walk phase of `Analyzer::analyze` — evaluate every
child of the root. -/
def walkTree (root : Node) : Option Analyzer :=
  evalChildren root.children 0 root [] ⟨[], DeclarationMap.new, []⟩

/-- `analyzer.rs`: `Analyzer::analyze` / the free function `analyze` — walk,
resolve the queued references, report unused declarations. -/
def analyze (root : Node) : Option AnalyzeResult :=
  match walkTree root with
  | none => none
  | some st =>
    let st := resolve_identifiers st
    let st := report_unused st
    some ⟨st.diagnostics, st.declarations⟩

/-- `analyze` with the unused-pass bucket iteration order `σ` made explicit:
two real runs build two distinct `HashMap`s whose `values()` orders need not
agree, which this parameter captures. -/
def analyzeWith (σ : List String) (root : Node) : Option AnalyzeResult :=
  match walkTree root with
  | none => none
  | some st =>
    let st := resolve_identifiers st
    let st := report_unused_in σ st
    some ⟨st.diagnostics, st.declarations⟩

/-! Concrete syntax trees used by the claim theorems, written as a tree-sitter
parse of the given icelang sources would expose them to the analyzer. -/

/-- An anonymous token node. -/
def tok (kind : String) (sl sc el ec : Nat) : Node :=
  .mk ⟨kind, false, false, false, ⟨⟨sl, sc⟩, ⟨el, ec⟩⟩, kind, none⟩ []

/-- A named node. -/
def nd (kind : String) (sl sc el ec : Nat) (text : String) (field : Option String)
    (cs : List Node) : Node :=
  .mk ⟨kind, false, false, true, ⟨⟨sl, sc⟩, ⟨el, ec⟩⟩, text, field⟩ cs

/-- `loop { 1; 2; }` — two expression statements inside a block, neither the
final named child of the block (the closing brace follows, and the first is
followed by the second). -/
def c1Tree : Node :=
  nd "source_file" 0 0 0 14 "loop { 1; 2; }" none
    [nd "stmt_loop" 0 0 0 14 "loop { 1; 2; }" none
      [tok "loop" 0 0 0 4,
       nd "stmt_block" 0 5 0 14 "{ 1; 2; }" none
         [tok "\x7b" 0 5 0 6,
          nd "stmt_expression" 0 7 0 9 "1;" none
            [nd "expr_literal" 0 7 0 8 "1" none [nd "number" 0 7 0 8 "1" none []],
             tok ";" 0 8 0 9],
          nd "stmt_expression" 0 10 0 12 "2;" none
            [nd "expr_literal" 0 10 0 11 "2" none [nd "number" 0 10 0 11 "2" none []],
             tok ";" 0 11 0 12],
          tok "\x7d" 0 13 0 14]]]

/-- A malformed `stmt_var_decl` node carrying no `name` field (as error
recovery can produce): `eval_var_decl` unwraps that field. -/
def c3BadTree : Node :=
  nd "source_file" 0 0 0 3 "set" none
    [nd "stmt_var_decl" 0 0 0 3 "set" none [tok "set" 0 0 0 3]]

/-- `function f() { return g(); } function g() { return 1; }` — the reference
to `g` inside `f`'s body precedes `g`'s textual declaration. -/
def c5Tree : Node :=
  nd "source_file" 0 0 0 55 "function f() { return g(); } function g() { return 1; }" none
    [nd "stmt_func_decl" 0 0 0 28 "function f() { return g(); }" none
      [tok "function" 0 0 0 8,
       nd "expr_identifier" 0 9 0 10 "f" (some "name") [],
       nd "args" 0 10 0 12 "()" (some "args") [],
       nd "stmt_block" 0 13 0 28 "{ return g(); }" (some "body")
         [tok "\x7b" 0 13 0 14,
          nd "stmt_return" 0 15 0 26 "return g();" none
            [tok "return" 0 15 0 21,
             nd "expr_call" 0 22 0 25 "g()" none
               [nd "expr_identifier" 0 22 0 23 "g" none [],
                nd "args" 0 23 0 25 "()" (some "args") []],
             tok ";" 0 25 0 26],
          tok "\x7d" 0 27 0 28]],
     nd "stmt_func_decl" 0 29 0 55 "function g() { return 1; }" none
      [tok "function" 0 29 0 37,
       nd "expr_identifier" 0 38 0 39 "g" (some "name") [],
       nd "args" 0 39 0 41 "()" (some "args") [],
       nd "stmt_block" 0 42 0 55 "{ return 1; }" (some "body")
         [tok "\x7b" 0 42 0 43,
          nd "stmt_return" 0 44 0 53 "return 1;" none
            [tok "return" 0 44 0 50,
             nd "expr_literal" 0 51 0 52 "1" none [nd "number" 0 51 0 52 "1" none []],
             tok ";" 0 52 0 53],
          tok "\x7d" 0 54 0 55]]]

/-- `set x = x;` — the right-hand `x` is read inside the declaring
statement's own range. -/
def c6Tree : Node :=
  nd "source_file" 0 0 0 10 "set x = x;" none
    [nd "stmt_var_decl" 0 0 0 10 "set x = x;" none
      [tok "set" 0 0 0 3,
       nd "expr_identifier" 0 4 0 5 "x" (some "name") [],
       tok "=" 0 6 0 7,
       nd "expr_identifier" 0 8 0 9 "x" (some "value") [],
       tok ";" 0 9 0 10]]

/-- `set a = 1; set b = 1;` — two module-level variables that are never
referenced, so the unused pass emits two hints. -/
def c9Tree : Node :=
  nd "source_file" 0 0 0 21 "set a = 1; set b = 1;" none
    [nd "stmt_var_decl" 0 0 0 10 "set a = 1;" none
      [tok "set" 0 0 0 3,
       nd "expr_identifier" 0 4 0 5 "a" (some "name") [],
       tok "=" 0 6 0 7,
       nd "expr_literal" 0 8 0 9 "1" (some "value") [nd "number" 0 8 0 9 "1" none []],
       tok ";" 0 9 0 10],
     nd "stmt_var_decl" 0 11 0 21 "set b = 1;" none
      [tok "set" 0 11 0 14,
       nd "expr_identifier" 0 15 0 16 "b" (some "name") [],
       tok "=" 0 17 0 18,
       nd "expr_literal" 0 19 0 20 "1" (some "value") [nd "number" 0 19 0 20 "1" none []],
       tok ";" 0 20 0 21]]

/-- `set print = 1;` — a module-level declaration whose name collides with a
seeded builtin (both scope-less). -/
def c10Tree : Node :=
  nd "source_file" 0 0 0 14 "set print = 1;" none
    [nd "stmt_var_decl" 0 0 0 14 "set print = 1;" none
      [tok "set" 0 0 0 3,
       nd "expr_identifier" 0 4 0 9 "print" (some "name") [],
       tok "=" 0 10 0 11,
       nd "expr_literal" 0 12 0 13 "1" (some "value") [nd "number" 0 12 0 13 "1" none []],
       tok ";" 0 13 0 14]]


/-- The node-local well-formedness condition under which the analyzer's
dispatch for this node performs no failing `unwrap`: every named field the
node's handler reads is present. -/
def Node.localWF (n : Node) : Bool :=
  match NodeType.fromKind n.kind with
  | .stmtVarDecl =>
    (n.childByField "name").isSome &&
    (match n.childByField "value" with
     | some v =>
       (match NodeType.fromKind v.kind with
        | .exprLambda => (v.childByField "body").isSome
        | _ => true)
     | none => false)
  | .stmtFuncDecl =>
    (n.childByField "name").isSome && (n.childByField "body").isSome &&
      (n.childByField "args").isSome
  | .exprLambda => (n.childByField "body").isSome && (n.childByField "args").isSome
  | .stmtFor => (n.childByField "iterator").isSome && (n.childByField "body").isSome
  | .exprMatch => (n.childByField "body").isSome
  | _ => true

mutual

/-- Hereditary well-formedness: `localWF` at every node of the tree. -/
def Node.wf : Node → Bool
  | .mk info cs => Node.localWF (.mk info cs) && Node.wfList cs

def Node.wfList : List Node → Bool
  | [] => true
  | c :: rest => c.wf && Node.wfList rest

end

/-- No two `PartialEq`-equal (same name, same scope) declarations in one
bucket: each element is compared against all later ones. -/
def bucketNoDupPeq : List Declaration → Bool
  | [] => true
  | d :: rest => !(rest.any (fun e => d.peq e)) && bucketNoDupPeq rest

/-- The redeclaration invariant of the whole map. -/
def DeclarationMap.noDupPeq (m : DeclarationMap) : Bool :=
  m.map.all (fun e => bucketNoDupPeq e.2)

/-- Two declarations of `x`, the second one starting later but ending earlier
than the first (`get_nearest` compares ends, the spec says starts). -/
def c8d1 : Declaration :=
  Declaration.new "x" .variable ⟨⟨0, 0⟩, ⟨0, 20⟩⟩ ⟨⟨0, 4⟩, ⟨0, 5⟩⟩ none false

def c8d2 : Declaration :=
  Declaration.new "x" .variable ⟨⟨0, 5⟩, ⟨0, 8⟩⟩ ⟨⟨0, 6⟩, ⟨0, 7⟩⟩ none false

/-- The key set of the symbol table `analyze c9Tree` builds, in entry order:
the twelve builtins followed by `a` and `b`. -/
def c9KeysA : List String :=
  ["print", "readline", "import", "export", "type_of", "length", "parse_number",
   "sqrt", "floor", "round", "ceil", "pow", "a", "b"]

/-- The same keys with `a` and `b` swapped: another legal iteration order of
the same `HashMap` contents. -/
def c9KeysB : List String :=
  ["print", "readline", "import", "export", "type_of", "length", "parse_number",
   "sqrt", "floor", "round", "ceil", "pow", "b", "a"]

/-- The result of analysing `c9Tree` under the first iteration order. -/
def c9ResA : AnalyzeResult := (analyzeWith c9KeysA c9Tree).getD ⟨[], DeclarationMap.new⟩

/-- The result of analysing `c9Tree` under the second iteration order. -/
def c9ResB : AnalyzeResult := (analyzeWith c9KeysB c9Tree).getD ⟨[], DeclarationMap.new⟩

/-- The result of analysing `c6Tree`. -/
def c6Res : AnalyzeResult := (analyze c6Tree).getD ⟨[], DeclarationMap.new⟩

/-- The function declaration `analyze c5Tree` records for `g`: visibility
range `[header start, body start)`, no scope. -/
def c5gDecl : Declaration :=
  Declaration.new "g" (.function []) ⟨⟨0, 29⟩, ⟨0, 42⟩⟩ ⟨⟨0, 38⟩, ⟨0, 39⟩⟩ none false

/-- A block-scoped variable declaration used to exercise the visibility
characterization at concrete positions. -/
def c6ScopedDecl : Declaration :=
  Declaration.new "x" .variable ⟨⟨0, 2⟩, ⟨0, 12⟩⟩ ⟨⟨0, 6⟩, ⟨0, 7⟩⟩ (some ⟨⟨0, 0⟩, ⟨5, 0⟩⟩) false

/-- A declaration whose name collides with no builtin. -/
def c4FreshDecl : Declaration :=
  Declaration.new "zz" .variable ⟨⟨0, 0⟩, ⟨0, 10⟩⟩ ⟨⟨0, 4⟩, ⟨0, 5⟩⟩ none false

/-- A module-level declaration named like the builtin `print`. -/
def c10PrintDecl : Declaration :=
  Declaration.new "print" .variable ⟨⟨0, 0⟩, ⟨0, 14⟩⟩ ⟨⟨0, 4⟩, ⟨0, 9⟩⟩ none false

/-- A bare tree-sitter `ERROR` node. -/
def c3ErrNode : Node :=
  .mk ⟨"ERROR", true, false, true, ⟨⟨0, 0⟩, ⟨0, 1⟩⟩, "x", none⟩ []


/-! Helper lemmas. -/

theorem Position.ltb_iff (p q : Position) : Position.ltb p q = true ↔ Position.Lt p q := by
  simp [Position.ltb, Position.Lt]

/-- The classifier bug at `ast.rs:50` makes the `StmtExpression` category
unreachable: no kind string is classified as an expression statement. -/
theorem fromKind_ne_stmtExpression :
    ∀ s, (NodeType.fromKind s == NodeType.stmtExpression) = false := by
  intro s
  unfold NodeType.fromKind
  repeat' split <;> rfl

theorem Position.ltb_asymm {p q : Position} (h : Position.ltb p q = true) :
    Position.ltb q p = false := by
  cases hqp : Position.ltb q p with
  | false => rfl
  | true =>
    exfalso
    rw [Position.ltb_iff] at h hqp
    unfold Position.Lt at h hqp
    omega

theorem Position.ltb_le_trans {p q r : Position} (h1 : Position.ltb p q = true)
    (h2 : Position.ltb p r = false) : Position.ltb q r = false := by
  cases hqr : Position.ltb q r with
  | false => rfl
  | true =>
    exfalso
    rw [Position.ltb_iff] at h1 hqr
    rw [Bool.eq_false_iff, ne_eq, Position.ltb_iff] at h2
    unfold Position.Lt at h1 hqr h2
    omega

/-- `foldl (· ++ filter)` over a list of buckets is `filter` of the
flattening: `get_unused` keeps exactly the not-used declarations. -/
theorem foldl_append_filter (P : Declaration → Bool) :
    ∀ (vs : List (List Declaration)) (acc : List Declaration),
      vs.foldl (fun acc ds => acc ++ ds.filter P) acc = acc ++ vs.flatten.filter P := by
  intro vs
  induction vs with
  | nil => intro acc; simp
  | cons v vs ih =>
    intro acc
    simp only [List.foldl_cons, ih, List.flatten_cons, List.filter_append, List.append_assoc]

theorem get_unused_eq (m : DeclarationMap) :
    m.get_unused = m.allDecls.filter (fun d => d.used == false) := by
  unfold DeclarationMap.get_unused DeclarationMap.allDecls
  rw [foldl_append_filter]
  simp

theorem get_unused_in_eq (m : DeclarationMap) (σ : List String) :
    m.get_unused_in σ = (m.values_in σ).flatten.filter (fun d => d.used == false) := by
  unfold DeclarationMap.get_unused_in
  rw [foldl_append_filter]
  simp

theorem mem_get_unused (m : DeclarationMap) (d : Declaration) :
    d ∈ m.get_unused ↔ (d ∈ m.allDecls ∧ d.used = false) := by
  rw [get_unused_eq]
  simp [List.mem_filter]

/-- The unused-pass fold appends exactly one `Unused` hint per not-excluded
declaration, and touches nothing else in the state. -/
theorem foldl_unused_hints :
    ∀ (l : List Declaration) (st : Analyzer),
      l.foldl
        (fun st u =>
          if u.name != "_" && u.name != "self" then st.push (hint (.unused u.name) u.name_range)
          else st)
        st =
      { st with diagnostics := st.diagnostics ++
          ((l.filter (fun d => d.name != "_" && d.name != "self")).map
            (fun d => hint (.unused d.name) d.name_range)) } := by
  intro l
  induction l with
  | nil => intro st; simp
  | cons d l ih =>
    intro st
    cases h : (d.name != "_" && d.name != "self") with
    | false =>
      simp only [List.foldl_cons, List.filter_cons, h]
      rw [ih]
      simp
    | true =>
      simp only [List.foldl_cons, List.filter_cons, h]
      rw [ih]
      simp [Analyzer.push]

theorem report_unused_eq (st : Analyzer) :
    report_unused st =
      { st with diagnostics := st.diagnostics ++
          ((st.declarations.get_unused.filter (fun d => d.name != "_" && d.name != "self")).map
            (fun d => hint (.unused d.name) d.name_range)) } := by
  unfold report_unused
  rw [foldl_unused_hints]

theorem report_unused_in_eq (σ : List String) (st : Analyzer) :
    report_unused_in σ st =
      { st with diagnostics := st.diagnostics ++
          (((st.declarations.get_unused_in σ).filter (fun d => d.name != "_" && d.name != "self")).map
            (fun d => hint (.unused d.name) d.name_range)) } := by
  unfold report_unused_in
  rw [foldl_unused_hints]

theorem perm_flatten {α : Type} {l1 l2 : List (List α)} (h : l1.Perm l2) :
    l1.flatten.Perm l2.flatten := by
  have := h.flatMap_right id
  simpa using this

theorem lookup_update_self (m : DeclarationMap) (k : String) (b' : List Declaration)
    (h : (m.lookup k).isSome = true) : (m.update k b').lookup k = some b' := by
  obtain ⟨entries⟩ := m
  simp only [DeclarationMap.lookup, DeclarationMap.update] at h ⊢
  induction entries with
  | nil => simp at h
  | cons e es ih =>
    cases he : (e.1 == k) with
    | true =>
      have hek : e.1 = k := by simpa using he
      simp [List.find?_cons, he, hek]
    | false =>
      have hfe : (if (e.1 == k) = true then (e.1, b') else e) = e := by simp [he]
      simp only [List.map_cons, hfe]
      rw [List.find?_cons_of_neg _ (by simp [he])]
      rw [List.find?_cons_of_neg _ (by simp [he])] at h
      exact ih h

theorem is_declaration_at_used (d : Declaration) (pos : Position) :
    is_declaration_at { d with used := true } pos = is_declaration_at d pos := by
  cases d
  simp [is_declaration_at]

theorem markFirstUsed_mem (bucket : List Declaration) (pos : Position)
    (h : bucket.any (fun d => is_declaration_at d pos) = true) :
    ∃ d, d ∈ markFirstUsed bucket pos ∧ is_declaration_at d pos = true ∧ d.used = true := by
  induction bucket with
  | nil => simp at h
  | cons d rest ih =>
    by_cases hd : is_declaration_at d pos = true
    · refine ⟨{ d with used := true }, ?_, ?_, rfl⟩
      · simp [markFirstUsed, hd]
      · rw [is_declaration_at_used]
        exact hd
    · simp only [List.any_cons, Bool.or_eq_true] at h
      rcases h with h | h
      · exact absurd h hd
      · obtain ⟨e, he, h1, h2⟩ := ih h
        refine ⟨e, ?_, h1, h2⟩
        rw [Bool.not_eq_true] at hd
        simp [markFirstUsed, hd, he]

/-- A successful `is_declared_at` with marking on leaves, in the resolved
name's bucket, a declaration visible at the reference position and marked
used. -/
theorem is_declared_at_marks (m : DeclarationMap) (ident : IdentiferData)
    (hu : ident.used = true) (h : (m.is_declared_at ident).fst = true) :
    ∃ d, d ∈ ((m.is_declared_at ident).snd.lookup ident.name).getD [] ∧
      is_declaration_at d ident.range.«end» = true ∧ d.used = true := by
  obtain ⟨nm, rg, us⟩ := ident
  dsimp only at hu h ⊢
  cases us with
  | false => simp at hu
  | true =>
    unfold DeclarationMap.is_declared_at at h ⊢
    dsimp only at h ⊢
    cases hl : m.lookup nm with
    | none => rw [hl] at h; simp at h
    | some bucket =>
      rw [hl] at h
      dsimp only at h ⊢
      cases ha : bucket.any (fun d => is_declaration_at d rg.«end») with
      | false => rw [ha] at h; simp at h
      | true =>
        have hup := lookup_update_self m nm (markFirstUsed bucket rg.«end»)
          (by rw [hl]; rfl)
        simp only [if_pos rfl, if_true]
        rw [hup]
        simpa using markFirstUsed_mem bucket _ ha

/-- A successful resolution leaves, in the resolved name's bucket, a
declaration that is visible at the reference position and is marked used. -/
theorem get_mut_marks (m : DeclarationMap) (i : Identifier)
    (h : (m.get_mut i).fst = true) :
    ∃ d, d ∈ ((m.get_mut i).snd.lookup i.name).getD [] ∧
      is_declaration_at d i.range.«end» = true ∧ d.used = true :=
  is_declared_at_marks m ⟨i.name, i.range, true⟩ rfl h

theorem bucketNoDupPeq_append (l : List Declaration) (d : Declaration) :
    bucketNoDupPeq (l ++ [d]) = (bucketNoDupPeq l && !(l.any (fun e => e.peq d))) := by
  induction l with
  | nil => simp [bucketNoDupPeq]
  | cons x xs ih =>
    rw [List.cons_append]
    show ((!((xs ++ [d]).any fun e => x.peq e)) && bucketNoDupPeq (xs ++ [d])) =
      ((!(xs.any fun e => x.peq e)) && bucketNoDupPeq xs && !((x :: xs).any fun e => e.peq d))
    rw [ih, List.any_append]
    simp only [List.any_cons, List.any_nil, Bool.or_false]
    cases hA : xs.any (fun e => x.peq e) <;> cases hB : x.peq d <;>
      cases hC : bucketNoDupPeq xs <;> cases hD : xs.any (fun e => e.peq d) <;> rfl

/-! Totality of the walk on field-complete trees (claim C3's apparatus). -/

theorem get_function_args_isSome (node : Node)
    (hb : (node.childByField "body").isSome = true)
    (ha : (node.childByField "args").isSome = true) :
    (get_function_args node).isSome = true := by
  unfold get_function_args
  cases hcb : node.childByField "body" with
  | none => rw [hcb] at hb; simp at hb
  | some body =>
    cases hca : node.childByField "args" with
    | none => rw [hca] at ha; simp at ha
    | some args => simp

theorem var_decl_declaration_isSome (node : Node) (name : String) (nr : Range)
    (scope : Option Range) (v : Node)
    (h : NodeType.fromKind v.kind = .exprLambda → (v.childByField "body").isSome = true) :
    (var_decl_declaration node name nr scope v).isSome = true := by
  unfold var_decl_declaration
  cases hvk : NodeType.fromKind v.kind <;> try simp
  exact h hvk

theorem eval_var_decl_isSome (node : Node) (ctx : Ctx) (st : Analyzer)
    (hk : NodeType.fromKind node.kind = .stmtVarDecl) (h : node.localWF = true) :
    (eval_var_decl node ctx st).isSome = true := by
  unfold Node.localWF at h
  rw [hk] at h
  unfold eval_var_decl
  cases hn : node.childByField "name" with
  | none => rw [hn] at h; simp at h
  | some name_node =>
    rw [hn] at h
    cases hv : node.childByField "value" with
    | none => rw [hv] at h; simp at h
    | some v =>
      rw [hv] at h
      simp only [Option.isSome_some, Bool.true_and] at h
      have hd := var_decl_declaration_isSome node name_node.text name_node.range
        (var_decl_scope ctx) v (by intro hvk; rw [hvk] at h; exact h)
      cases hdd : var_decl_declaration node name_node.text name_node.range
          (var_decl_scope ctx) v with
      | none => rw [hdd] at hd; simp at hd
      | some declaration => simp [hdd]

theorem eval_func_decl_isSome (node : Node) (ctx : Ctx) (st : Analyzer)
    (hk : NodeType.fromKind node.kind = .stmtFuncDecl) (h : node.localWF = true) :
    (eval_func_decl node ctx st).isSome = true := by
  unfold Node.localWF at h
  rw [hk] at h
  simp only [Bool.and_eq_true] at h
  unfold eval_func_decl
  cases hn : node.childByField "name" with
  | none => rw [hn] at h; simp at h
  | some name_node =>
    cases hb : node.childByField "body" with
    | none => rw [hb] at h; simp at h
    | some block =>
      have hga := get_function_args_isSome node (by rw [hb]; rfl) (by
        rcases h with ⟨⟨h1, h2⟩, h3⟩
        exact h3)
      cases hgaa : get_function_args node with
      | none => rw [hgaa] at hga; simp at hga
      | some p =>
        obtain ⟨names, args_decl⟩ := p
        simp [hgaa]

theorem eval_lambda_isSome (node : Node) (st : Analyzer)
    (hk : NodeType.fromKind node.kind = .exprLambda) (h : node.localWF = true) :
    (eval_lambda node st).isSome = true := by
  unfold Node.localWF at h
  rw [hk] at h
  simp only [Bool.and_eq_true] at h
  unfold eval_lambda
  have hga := get_function_args_isSome node h.1 h.2
  cases hgaa : get_function_args node with
  | none => rw [hgaa] at hga; simp at hga
  | some p =>
    obtain ⟨names, args_decl⟩ := p
    simp

theorem eval_for_loop_isSome (node : Node) (st : Analyzer)
    (hk : NodeType.fromKind node.kind = .stmtFor) (h : node.localWF = true) :
    (eval_for_loop node st).isSome = true := by
  unfold Node.localWF at h
  rw [hk] at h
  simp only [Bool.and_eq_true] at h
  unfold eval_for_loop
  cases hi : node.childByField "iterator" with
  | none => rw [hi] at h; simp at h
  | some iterator =>
    cases hb : node.childByField "body" with
    | none => rw [hb] at h; simp at h
    | some body => simp

theorem eval_match_isSome (node : Node) (st : Analyzer)
    (hk : NodeType.fromKind node.kind = .exprMatch) (h : node.localWF = true) :
    (eval_match node st).isSome = true := by
  unfold Node.localWF at h
  rw [hk] at h
  unfold eval_match
  cases hb : node.childByField "body" with
  | none => rw [hb] at h; simp at h
  | some body =>
    rw [apply_ite Option.isSome]
    simp

mutual

theorem evalNode_isSome : ∀ (n : Node) (ctx : Ctx) (st : Analyzer),
    n.wf = true → (evalNode n ctx st).isSome = true
  | .mk info cs, ctx, st, h => by
    simp only [Node.wf, Bool.and_eq_true] at h
    obtain ⟨hlocal, hcs⟩ := h
    simp only [evalNode]
    cases hk : NodeType.fromKind info.kind
    case stmtVarDecl =>
      have hs := eval_var_decl_isSome (Node.mk info cs) ctx
        (handle_syntax_error (Node.mk info cs) ctx st) hk hlocal
      obtain ⟨st2, hst2⟩ := Option.isSome_iff_exists.mp hs
      rw [hst2]
      exact evalChildren_isSome cs 0 (Node.mk info cs) ctx st2 hcs
    case stmtFuncDecl =>
      have hs := eval_func_decl_isSome (Node.mk info cs) ctx
        (handle_syntax_error (Node.mk info cs) ctx st) hk hlocal
      obtain ⟨st2, hst2⟩ := Option.isSome_iff_exists.mp hs
      rw [hst2]
      exact evalChildren_isSome cs 0 (Node.mk info cs) ctx st2 hcs
    case stmtFor =>
      have hs := eval_for_loop_isSome (Node.mk info cs)
        (handle_syntax_error (Node.mk info cs) ctx st) hk hlocal
      obtain ⟨st2, hst2⟩ := Option.isSome_iff_exists.mp hs
      rw [hst2]
      exact evalChildren_isSome cs 0 (Node.mk info cs) ctx st2 hcs
    case exprMatch =>
      have hs := eval_match_isSome (Node.mk info cs)
        (handle_syntax_error (Node.mk info cs) ctx st) hk hlocal
      obtain ⟨st2, hst2⟩ := Option.isSome_iff_exists.mp hs
      rw [hst2]
      exact evalChildren_isSome cs 0 (Node.mk info cs) ctx st2 hcs
    case exprLambda =>
      have hs := eval_lambda_isSome (Node.mk info cs)
        (handle_syntax_error (Node.mk info cs) ctx st) hk hlocal
      obtain ⟨st2, hst2⟩ := Option.isSome_iff_exists.mp hs
      rw [hst2]
      exact evalChildren_isSome cs 0 (Node.mk info cs) ctx st2 hcs
    case stmtExpression =>
      have hne := fromKind_ne_stmtExpression info.kind
      rw [hk] at hne
      simp at hne
    all_goals exact evalChildren_isSome cs 0 (Node.mk info cs) ctx _ hcs

theorem evalChildren_isSome : ∀ (cs : List Node) (i : Nat) (p : Node) (ctx : Ctx)
    (st : Analyzer), Node.wfList cs = true → (evalChildren cs i p ctx st).isSome = true
  | [], _, _, _, st, _ => by simp [evalChildren]
  | c :: rest, i, p, ctx, st, h => by
    simp only [Node.wfList, Bool.and_eq_true] at h
    simp only [evalChildren]
    have h1 := evalNode_isSome c ((p, i) :: ctx) st h.1
    obtain ⟨st2, hst2⟩ := Option.isSome_iff_exists.mp h1
    rw [hst2]
    exact evalChildren_isSome rest (i + 1) p ctx st2 h.2

end

/-- The walk, resolution pass and unused pass all complete on any tree whose
declaration-like nodes carry the named fields their handlers read. -/
theorem analyze_isSome (root : Node) (h : root.wf = true) : (analyze root).isSome = true := by
  obtain ⟨info, cs⟩ := root
  simp only [Node.wf, Bool.and_eq_true] at h
  unfold analyze walkTree
  have hw := evalChildren_isSome (Node.mk info cs).children 0 (Node.mk info cs) []
    ⟨[], DeclarationMap.new, []⟩ h.2
  obtain ⟨st, hst⟩ := Option.isSome_iff_exists.mp hw
  rw [hst]
  rfl

theorem Position.ltb_irrefl (p : Position) : Position.ltb p p = false := by
  simp [Position.ltb]

/-- Invariant of `get_nearest`'s scan: the held declaration is applicable and
its `range.end` is maximal among the applicable declarations seen so far. -/
theorem get_nearest_go (pos : Position) :
    ∀ (ds : List Declaration) (acc : Option Declaration) (seen : List Declaration),
      (acc = none → ∀ d ∈ seen, is_declaration_at d pos = false) →
      (∀ v, acc = some v → v ∈ seen ∧ is_declaration_at v pos = true ∧
        ∀ d ∈ seen, is_declaration_at d pos = true →
          Position.ltb v.range.«end» d.range.«end» = false) →
      (ds.foldl (nearest_step pos) acc = none →
        ∀ d ∈ seen ++ ds, is_declaration_at d pos = false) ∧
      (∀ n, ds.foldl (nearest_step pos) acc = some n →
        n ∈ seen ++ ds ∧ is_declaration_at n pos = true ∧
          ∀ d ∈ seen ++ ds, is_declaration_at d pos = true →
            Position.ltb n.range.«end» d.range.«end» = false) := by
  intro ds
  induction ds with
  | nil =>
    intro acc seen hnone hsome
    simp only [List.foldl_nil, List.append_nil]
    exact ⟨hnone, hsome⟩
  | cons d ds ih =>
    intro acc seen hnone hsome
    simp only [List.foldl_cons]
    have hmem : ∀ x ∈ seen ++ [d], x ∈ seen ∨ x = d := by
      intro x hx
      rcases List.mem_append.mp hx with hx | hx
      · exact Or.inl hx
      · exact Or.inr (List.mem_singleton.mp hx)
    have hn2 : nearest_step pos acc d = none →
        ∀ x ∈ seen ++ [d], is_declaration_at x pos = false := by
      intro h0 x hx
      cases hd : is_declaration_at d pos with
      | false =>
        have hacc : nearest_step pos acc d = acc := by simp [nearest_step, hd]
        rw [hacc] at h0
        rcases hmem x hx with hx | hx
        · exact hnone h0 x hx
        · rw [hx]; exact hd
      | true =>
        exfalso
        cases acc with
        | none => simp [nearest_step, hd] at h0
        | some value =>
          rw [show nearest_step pos (some value) d =
              (if Position.ltb value.range.«end» d.range.«end» then some d else some value)
            from by simp [nearest_step, hd]] at h0
          rcases hlt : Position.ltb value.range.«end» d.range.«end» <;> rw [hlt] at h0 <;>
            simp at h0
    have hs2 : ∀ v, nearest_step pos acc d = some v →
        v ∈ seen ++ [d] ∧ is_declaration_at v pos = true ∧
          ∀ x ∈ seen ++ [d], is_declaration_at x pos = true →
            Position.ltb v.range.«end» x.range.«end» = false := by
      intro v hv
      have hdmem : d ∈ seen ++ [d] := List.mem_append.mpr (Or.inr (List.mem_singleton.mpr rfl))
      cases hd : is_declaration_at d pos with
      | false =>
        have hacc : nearest_step pos acc d = acc := by simp [nearest_step, hd]
        rw [hacc] at hv
        obtain ⟨h1, h2, h3⟩ := hsome v hv
        refine ⟨List.mem_append.mpr (Or.inl h1), h2, ?_⟩
        intro x hx hxa
        rcases hmem x hx with hx | hx
        · exact h3 x hx hxa
        · rw [hx] at hxa; rw [hxa] at hd; simp at hd
      | true =>
        cases acc with
        | none =>
          have hacc : nearest_step pos none d = some d := by simp [nearest_step, hd]
          rw [hacc, Option.some.injEq] at hv
          subst hv
          refine ⟨hdmem, hd, ?_⟩
          intro x hx hxa
          rcases hmem x hx with hx | hx
          · rw [hnone rfl x hx] at hxa; simp at hxa
          · rw [hx]; exact Position.ltb_irrefl _
        | some value =>
          obtain ⟨hv1, hv2, hv3⟩ := hsome value rfl
          cases hlt : Position.ltb value.range.«end» d.range.«end» with
          | true =>
            have hacc : nearest_step pos (some value) d = some d := by
              simp [nearest_step, hd, hlt]
            rw [hacc, Option.some.injEq] at hv
            subst hv
            refine ⟨hdmem, hd, ?_⟩
            intro x hx hxa
            rcases hmem x hx with hx | hx
            · exact Position.ltb_le_trans hlt (hv3 x hx hxa)
            · rw [hx]; exact Position.ltb_irrefl _
          | false =>
            have hacc : nearest_step pos (some value) d = some value := by
              simp [nearest_step, hd, hlt]
            rw [hacc, Option.some.injEq] at hv
            subst hv
            refine ⟨List.mem_append.mpr (Or.inl hv1), hv2, ?_⟩
            intro x hx hxa
            rcases hmem x hx with hx | hx
            · exact hv3 x hx hxa
            · rw [hx]; exact hlt
    have := ih (nearest_step pos acc d) (seen ++ [d]) hn2 hs2
    simpa [List.append_assoc] using this

/-- `get_nearest` returns `none` exactly when no bucket entry is applicable,
and otherwise an applicable entry whose `range.end` is maximal among the
applicable ones. -/
theorem get_nearest_spec (ds : List Declaration) (pos : Position) :
    (get_nearest ds pos = none → ∀ d ∈ ds, is_declaration_at d pos = false) ∧
    (∀ n, get_nearest ds pos = some n →
      n ∈ ds ∧ is_declaration_at n pos = true ∧
        ∀ d ∈ ds, is_declaration_at d pos = true →
          Position.ltb n.range.«end» d.range.«end» = false) := by
  have := get_nearest_go pos ds none [] (fun _ => by simp) (fun v hv => by simp at hv)
  simpa [get_nearest] using this

theorem get_declared_at_eq (m : DeclarationMap) (pos : Position) :
    m.get_declared_at pos = m.values.filterMap (fun ds => get_nearest ds pos) := by
  unfold DeclarationMap.get_declared_at
  suffices h : ∀ (vs : List (List Declaration)) (acc : List Declaration),
      vs.foldl
        (fun result ds =>
          match get_nearest ds pos with
          | some nearest => result ++ [nearest]
          | none => result)
        acc = acc ++ vs.filterMap (fun ds => get_nearest ds pos) by
    rw [h]
    simp
  intro vs
  induction vs with
  | nil => intro acc; simp
  | cons v vs ihv =>
    intro acc
    simp only [List.foldl_cons, List.filterMap_cons]
    cases hv : get_nearest v pos with
    | none => rw [ihv]
    | some n => rw [ihv]; simp

theorem find?_append_entry (entries : List (String × List Declaration)) (k : String)
    (b : List Declaration) (h : entries.find? (fun e => e.1 == k) = none) :
    (entries ++ [(k, b)]).find? (fun e => e.1 == k) = some (k, b) := by
  rw [List.find?_eq_none] at h
  induction entries with
  | nil => simp
  | cons e es ih =>
    rw [List.cons_append,
      @List.find?_cons_of_neg _ (fun x => x.1 == k) e (es ++ [(k, b)]) (h e (by simp))]
    exact ih (fun x hx => h x (by simp [hx]))

theorem insert_eq_new_key (m : DeclarationMap) (d : Declaration)
    (hl : m.lookup d.name = none) :
    m.insert d = (true, ⟨m.map ++ [(d.name, [d])]⟩) := by
  simp [DeclarationMap.insert, hl]

theorem insert_eq_dup (m : DeclarationMap) (d : Declaration) (bucket : List Declaration)
    (hl : m.lookup d.name = some bucket) (ha : bucket.any (fun e => e.peq d) = true) :
    m.insert d = (false, m) := by
  simp only [DeclarationMap.insert, hl, ha]
  simp

theorem insert_eq_push (m : DeclarationMap) (d : Declaration) (bucket : List Declaration)
    (hl : m.lookup d.name = some bucket) (ha : bucket.any (fun e => e.peq d) = false) :
    m.insert d = (true, m.update d.name (bucket ++ [d])) := by
  simp only [DeclarationMap.insert, hl, ha]
  simp

theorem noDupPeq_lookup (m : DeclarationMap) (k : String) (b : List Declaration)
    (h : m.noDupPeq = true) (hl : m.lookup k = some b) : bucketNoDupPeq b = true := by
  unfold DeclarationMap.noDupPeq at h
  rw [List.all_eq_true] at h
  unfold DeclarationMap.lookup at hl
  cases hf : m.map.find? (fun e => e.1 == k) with
  | none => rw [hf] at hl; simp at hl
  | some e =>
    rw [hf] at hl
    have hb : e.2 = b := by simpa using hl
    have hmem := List.mem_of_find?_eq_some hf
    rw [← hb]
    exact h e hmem

theorem noDupPeq_update (m : DeclarationMap) (k : String) (b' : List Declaration)
    (hb : bucketNoDupPeq b' = true) (h : m.noDupPeq = true) :
    (m.update k b').noDupPeq = true := by
  unfold DeclarationMap.noDupPeq DeclarationMap.update at *
  rw [List.all_eq_true] at *
  intro e he
  simp only [List.mem_map] at he
  obtain ⟨e0, he0, rfl⟩ := he
  by_cases hk : (e0.1 == k) = true
  · simp only [hk, if_true, if_pos]
    exact hb
  · rw [Bool.not_eq_true] at hk
    simp only [hk, Bool.false_eq_true, if_false]
    exact h e0 he0

/-- `insert` preserves the per-bucket no-redeclaration invariant. -/
theorem insert_noDupPeq (m : DeclarationMap) (d : Declaration)
    (h : m.noDupPeq = true) : (m.insert d).snd.noDupPeq = true := by
  cases hl : m.lookup d.name with
  | none =>
    rw [insert_eq_new_key m d hl]
    unfold DeclarationMap.noDupPeq at h ⊢
    rw [List.all_eq_true] at h
    dsimp only
    rw [List.all_eq_true]
    intro e he
    rcases List.mem_append.mp he with he | he
    · exact h e he
    · rw [List.mem_singleton.mp he]
      simp [bucketNoDupPeq]
  | some bucket =>
    cases ha : bucket.any (fun e => e.peq d) with
    | true => rw [insert_eq_dup m d bucket hl ha]; exact h
    | false =>
      rw [insert_eq_push m d bucket hl ha]
      apply noDupPeq_update
      · rw [bucketNoDupPeq_append]
        rw [noDupPeq_lookup m d.name bucket h hl, ha]
        rfl
      · exact h

theorem valuesIn_perm (m : DeclarationMap) {σ1 σ2 : List String} (h : σ1.Perm σ2) :
    (m.values_in σ1).Perm (m.values_in σ2) :=
  h.filterMap m.lookup

theorem get_unused_in_perm (m : DeclarationMap) {σ1 σ2 : List String} (h : σ1.Perm σ2) :
    (m.get_unused_in σ1).Perm (m.get_unused_in σ2) := by
  rw [get_unused_in_eq, get_unused_in_eq]
  exact (perm_flatten (valuesIn_perm m h)).filter _

/-- `analyzeWith` in closed form: the walk and resolution do not depend on
the iteration order; only the trailing block of `Unused` hints does. -/
theorem analyzeWith_eq (σ : List String) (root : Node) :
    analyzeWith σ root = (walkTree root).map (fun st =>
      let st2 := resolve_identifiers st
      ⟨st2.diagnostics ++
        (((st2.declarations.get_unused_in σ).filter
          (fun d => d.name != "_" && d.name != "self")).map
          (fun d => hint (.unused d.name) d.name_range)),
       st2.declarations⟩) := by
  unfold analyzeWith
  cases walkTree root with
  | none => rfl
  | some st => simp [report_unused_in_eq]

/-! The claim theorems. -/

/-- C1: the claim says every discardable expression statement yields an
`UnusedResult` warning and an `Assign` hint; in the code the classifier maps
the kind string of expression statements to the return category
(`ast.rs:50`), so `eval_expression` is unreachable and expression statements
are handled as `return` statements instead.  On `loop { 1; 2; }` the two
expression statements produce two `ReturnOutside` errors and no
`UnusedResult`/`Assign` diagnostics at all. -/
theorem c1_expression_statement_unused_result_bug :
    (∀ s : String, (NodeType.fromKind s == NodeType.stmtExpression) = false) ∧
    (analyze c1Tree).map (fun r => r.diagnostics) =
      some [error .returnOutside ⟨⟨0, 7⟩, ⟨0, 9⟩⟩, error .returnOutside ⟨⟨0, 10⟩, ⟨0, 12⟩⟩] ∧
    (analyze c1Tree).map (fun r => r.declarations) = some DeclarationMap.new := by
  refine ⟨fromKind_ne_stmtExpression, ?_, ?_⟩ <;> decide

/-- C2: the claim says the classifier maps `"stmt_expression"` to the
expression-statement category; the code maps it to `StmtReturn`
(`ast.rs:50`).  The rest of the claim holds: the classifier is total,
`"stmt_return"` maps to the return category and unrecognized strings map to
the unnamed category. -/
theorem c2_node_classifier_stmt_expression_bug :
    NodeType.fromKind "stmt_expression" = NodeType.stmtReturn ∧
    (NodeType.fromKind "stmt_expression" == NodeType.stmtExpression) = false ∧
    NodeType.fromKind "stmt_return" = NodeType.stmtReturn ∧
    NodeType.fromKind "stmt_block" = NodeType.stmtBlock ∧
    NodeType.fromKind "some_unknown_kind" = NodeType.unnamed := by
  decide

/-- C3 (counterexample): on a `stmt_var_decl` node lacking the `name` field,
`eval_var_decl`'s `unwrap` panics and the walk aborts: `analyze` returns no
result at all instead of a diagnostic-laden one. -/
theorem c3_missing_name_aborts : analyze c3BadTree = none := by decide

/-- C3 (amended): the walk terminates with a complete result on every tree —
error and missing nodes included — whose declaration-like nodes carry the
named fields their handlers read; and every error or missing node does get a
diagnostic.  (As stated, the claim fails: a declaration node lacking such a
field aborts the walk, see the counterexample.) -/
theorem c3_analyze_total_on_field_complete_trees :
    (∀ root : Node, root.wf = true → (analyze root).isSome = true) ∧
    (∀ (node : Node) (ctx : Ctx) (st : Analyzer),
      node.info.isError = true ∨ node.info.isMissing = true →
      (handle_syntax_error node ctx st).diagnostics.length > st.diagnostics.length) := by
  constructor
  · exact analyze_isSome
  · intro node ctx st h
    unfold handle_syntax_error
    rcases h with h | h <;> rw [h] <;>
      cases he : node.info.isError <;> cases hm : node.info.isMissing <;>
        simp_all [Analyzer.push]

/-- C3 (witness): `set x = x;` parses to a field-complete tree and analysis
completes on it. -/
theorem c3_total_witness :
    (c6Tree.wf = true ∧ (analyze c6Tree).isSome = true) ∧
    (handle_syntax_error c3ErrNode [] ⟨[], DeclarationMap.new, []⟩).diagnostics.length > 0 :=
  ⟨⟨by decide, c3_analyze_total_on_field_complete_trees.1 c6Tree (by decide)⟩,
   c3_analyze_total_on_field_complete_trees.2 c3ErrNode [] ⟨[], DeclarationMap.new, []⟩
     (Or.inl (by decide))⟩

/-- C4: `insert` returns false and leaves the map unchanged exactly when the
name's bucket holds a `PartialEq`-equal (same name, same scope) declaration;
otherwise it returns true and appends to the bucket; consequently no
insertion sequence starting from the seeded map ever puts two
name-and-scope-equal declarations in one bucket. -/
theorem c4_insert_redeclaration_spec :
    (∀ (m : DeclarationMap) (d : Declaration),
      ((m.insert d).fst = !((m.lookup d.name).getD []).any (fun e => e.peq d)) ∧
      (((m.lookup d.name).getD []).any (fun e => e.peq d) = true → (m.insert d).snd = m) ∧
      (((m.lookup d.name).getD []).any (fun e => e.peq d) = false →
        (m.insert d).snd.lookup d.name = some (((m.lookup d.name).getD []) ++ [d])) ∧
      (m.noDupPeq = true → (m.insert d).snd.noDupPeq = true)) ∧
    (∀ ds : List Declaration,
      (ds.foldl (fun m d => (m.insert d).snd) DeclarationMap.new).noDupPeq = true) := by
  have core : ∀ (m : DeclarationMap) (d : Declaration),
      ((m.insert d).fst = !((m.lookup d.name).getD []).any (fun e => e.peq d)) ∧
      (((m.lookup d.name).getD []).any (fun e => e.peq d) = true → (m.insert d).snd = m) ∧
      (((m.lookup d.name).getD []).any (fun e => e.peq d) = false →
        (m.insert d).snd.lookup d.name = some (((m.lookup d.name).getD []) ++ [d])) := by
    intro m d
    cases hl : m.lookup d.name with
    | none =>
      rw [insert_eq_new_key m d hl]
      refine ⟨by simp, by simp, ?_⟩
      intro _
      simp only [Option.getD_none, List.nil_append]
      unfold DeclarationMap.lookup at hl ⊢
      dsimp only
      rw [find?_append_entry m.map d.name [d] (by simpa using hl)]
      rfl
    | some bucket =>
      cases ha : bucket.any (fun e => e.peq d) with
      | true =>
        rw [insert_eq_dup m d bucket hl ha]
        refine ⟨by simp [ha], fun _ => rfl, ?_⟩
        intro hfalse
        simp only [Option.getD_some] at hfalse
        rw [hfalse] at ha
        simp at ha
      | false =>
        rw [insert_eq_push m d bucket hl ha]
        refine ⟨by simp [ha], ?_, ?_⟩
        · intro htrue
          simp only [Option.getD_some] at htrue
          rw [htrue] at ha
          simp at ha
        · intro _
          simp only [Option.getD_some]
          exact lookup_update_self m d.name (bucket ++ [d]) (by rw [hl]; rfl)
  refine ⟨fun m d => ⟨(core m d).1, (core m d).2.1, (core m d).2.2, insert_noDupPeq m d⟩, ?_⟩
  intro ds
  have general : ∀ (ds : List Declaration) (m : DeclarationMap), m.noDupPeq = true →
      (ds.foldl (fun m d => (m.insert d).snd) m).noDupPeq = true := by
    intro ds
    induction ds with
    | nil => intro m hm; simpa using hm
    | cons d ds ih =>
      intro m hm
      simp only [List.foldl_cons]
      exact ih _ (insert_noDupPeq m d hm)
  exact general ds DeclarationMap.new (by decide)

/-- C4 (witness): inserting a scope-less `print` into the seeded map is
rejected without mutation; inserting a fresh name appends and keeps the
invariant. -/
theorem c4_insert_redeclaration_witness :
    (DeclarationMap.new.insert c10PrintDecl).snd = DeclarationMap.new ∧
    (DeclarationMap.new.insert c4FreshDecl).snd.lookup "zz" = some [c4FreshDecl] ∧
    (DeclarationMap.new.insert c4FreshDecl).snd.noDupPeq = true := by
  refine ⟨(c4_insert_redeclaration_spec.1 DeclarationMap.new c10PrintDecl).2.1 (by decide),
    ?_, (c4_insert_redeclaration_spec.1 DeclarationMap.new c4FreshDecl).2.2.2 (by decide)⟩
  have h := (c4_insert_redeclaration_spec.1 DeclarationMap.new c4FreshDecl).2.2.1 (by decide)
  simpa using h

/-- C5: a function declaration is visible exactly at the positions before its
header's start or after its body's start, and, when it carries a scope,
strictly inside that scope; concretely, in
`function f() { return g(); } function g() { return 1; }` the reference to
`g` inside `f`'s body resolves (the recorded `g` declaration is marked used)
and no `Undeclared` diagnostic is emitted. -/
theorem c5_function_visibility_hoisting :
    (∀ (decl : Declaration) (position : Position), decl.kind.is_function = true →
      (is_declaration_at decl position = true ↔
        ((Position.Lt position decl.range.start ∨ Position.Lt decl.range.«end» position) ∧
         (∀ s, decl.scope = some s →
           (Position.Lt s.start position ∧ Position.Lt position s.«end»))))) ∧
    (analyze c5Tree).map (fun r => r.diagnostics) =
      some [hint (.unused "f") ⟨⟨0, 9⟩, ⟨0, 10⟩⟩] ∧
    (analyze c5Tree).map (fun r => (r.declarations.lookup "g").map (fun l =>
      l.map (fun d => d.used))) = some (some [true]) := by
  refine ⟨?_, by decide, by decide⟩
  intro decl position hf
  cases hs : decl.scope with
  | none => simp [is_declaration_at, hf, hs, Position.ltb_iff]
  | some s => simp [is_declaration_at, hf, hs, Position.ltb_iff]

/-- C5 (witness): the recorded declaration of `g` (a function, no scope) is
visible at position (0,23), inside `f`'s body and before `g`'s own header. -/
theorem c5_function_visibility_hoisting_witness :
    (Position.Lt ⟨0, 23⟩ c5gDecl.range.start ∨ Position.Lt c5gDecl.range.«end» ⟨0, 23⟩) ∧
    (∀ s, c5gDecl.scope = some s →
      (Position.Lt s.start ⟨0, 23⟩ ∧ Position.Lt ⟨0, 23⟩ s.«end»)) :=
  (c5_function_visibility_hoisting.1 c5gDecl ⟨0, 23⟩ (by decide)).mp (by decide)

/-- C6: a variable declaration is visible exactly at the positions strictly
after its statement's end and, when it carries a scope, strictly inside that
scope; concretely `set x = x;` emits `Undeclared("x")` for its right-hand
side (the initializer position is not after the statement's end). -/
theorem c6_variable_sequential_visibility :
    (∀ (decl : Declaration) (position : Position), decl.kind.is_function = false →
      (is_declaration_at decl position = true ↔
        (Position.Lt decl.range.«end» position ∧
         (∀ s, decl.scope = some s →
           (Position.Lt s.start position ∧ Position.Lt position s.«end»))))) ∧
    (analyze c6Tree).map (fun r => r.diagnostics) =
      some [error (.undeclared "x") ⟨⟨0, 8⟩, ⟨0, 9⟩⟩, hint (.unused "x") ⟨⟨0, 4⟩, ⟨0, 5⟩⟩] := by
  refine ⟨?_, by decide⟩
  intro decl position hf
  cases hs : decl.scope with
  | none => simp [is_declaration_at, hf, hs, Position.ltb_iff]
  | some s => simp [is_declaration_at, hf, hs, Position.ltb_iff]

/-- C6 (witness): a block-scoped variable is visible at a position after its
statement and inside its block, and invisible at a position outside the
block. -/
theorem c6_variable_sequential_visibility_witness :
    is_declaration_at c6ScopedDecl ⟨1, 0⟩ = true ∧
    is_declaration_at c6ScopedDecl ⟨6, 0⟩ = false := by
  constructor
  · refine (c6_variable_sequential_visibility.1 c6ScopedDecl ⟨1, 0⟩ (by decide)).mpr ⟨?_, ?_⟩
    · simp [c6ScopedDecl, Declaration.new, Position.Lt]
    · intro s hs
      simp only [c6ScopedDecl, Declaration.new, Option.some.injEq] at hs
      subst hs
      constructor <;> simp [Position.Lt]
  · have h := c6_variable_sequential_visibility.1 c6ScopedDecl ⟨6, 0⟩ (by decide)
    cases hv : is_declaration_at c6ScopedDecl ⟨6, 0⟩ with
    | false => rfl
    | true =>
      exfalso
      have hin := (h.mp hv).2 ⟨⟨0, 0⟩, ⟨5, 0⟩⟩ (by simp [c6ScopedDecl, Declaration.new])
      have h2 := hin.2
      simp [Position.Lt] at h2

/-! No phase before `report_unused` emits an `Unused`-shaped hint
(claim C7's apparatus). -/

theorem isUnusedHint_error (k : ErrorKind) (r : Range) : isUnusedHint (error k r) = false := rfl

theorem isUnusedHint_warn (k : WarnKind) (r : Range) : isUnusedHint (warn k r) = false := rfl

theorem isUnusedHint_assign (r : Range) : isUnusedHint (hint .assign r) = false := rfl

theorem isUnusedHint_unreachable (r : Range) :
    isUnusedHint (hint .unreachable r) = false := rfl

theorem isUnusedHint_emptyMatch (r : Range) :
    isUnusedHint (hint .emptyMatch r) = false := rfl

theorem isUnusedHint_unused (s : String) (r : Range) :
    isUnusedHint (hint (.unused s) r) = true := by
  simp [isUnusedHint, hint, HintKind.toMessage, String.data_append]

theorem clean_push (st : Analyzer) (d : Diagnostic) (hc : st.clean = true)
    (hd : isUnusedHint d = false) : (st.push d).clean = true := by
  simp_all [Analyzer.clean, Analyzer.push]

theorem clean_push2 (st : Analyzer) (d e : Diagnostic) (hc : st.clean = true)
    (hd : isUnusedHint d = false) (he : isUnusedHint e = false) :
    (st.push2 d e).clean = true := by
  simp_all [Analyzer.clean, Analyzer.push2]

theorem handle_syntax_error_clean (node : Node) (ctx : Ctx) (st : Analyzer)
    (hc : st.clean = true) : (handle_syntax_error node ctx st).clean = true := by
  unfold handle_syntax_error
  split
  · dsimp only
    split
    · apply clean_push
      · apply clean_push _ _ hc
        (repeat' split) <;> exact isUnusedHint_error _ _
      · (repeat' split) <;> exact isUnusedHint_error _ _
    · apply clean_push _ _ hc
      (repeat' split) <;> exact isUnusedHint_error _ _
  · dsimp only
    split
    · apply clean_push _ _ hc
      (repeat' split) <;> exact isUnusedHint_error _ _
    · exact hc

theorem eval_expression_clean (node : Node) (ctx : Ctx) (st st' : Analyzer)
    (h : eval_expression node ctx st = some st') (hc : st.clean = true) :
    st'.clean = true := by
  unfold eval_expression at h
  split at h
  · rw [Option.some.injEq] at h
    subst h
    exact hc
  · rename_i child heq
    cases hu : expression_unused child with
    | none => rw [hu] at h; simp at h
    | some unused =>
      rw [hu] at h
      repeat' split at h
      all_goals (try simp at h)
      all_goals (repeat' split at h)
      all_goals (try simp at h)
      all_goals subst h
      all_goals
        first
        | exact clean_push2 _ _ _ hc (isUnusedHint_warn _ _) (isUnusedHint_assign _)
        | exact hc

theorem eval_literal_clean (node : Node) (st : Analyzer) (hc : st.clean = true) :
    (eval_literal node st).clean = true := by
  unfold eval_literal
  repeat' (first | split | dsimp only)
  all_goals
    first
    | exact hc
    | exact clean_push2 _ _ _ hc (isUnusedHint_error _ _) (isUnusedHint_error _ _)

theorem insert_or_report_clean (st : Analyzer) (decl : Declaration) (name : String)
    (nr : Range) (hc : st.clean = true) :
    (insert_or_report st decl name nr).clean = true := by
  unfold insert_or_report
  obtain ⟨ok, m⟩ := st.declarations.insert decl
  cases ok
  · exact clean_push _ _ hc (isUnusedHint_error _ _)
  · exact hc

theorem eval_var_decl_clean (node : Node) (ctx : Ctx) (st st' : Analyzer)
    (h : eval_var_decl node ctx st = some st') (hc : st.clean = true) :
    st'.clean = true := by
  unfold eval_var_decl at h
  repeat' (first | split at h | dsimp only at h)
  all_goals (try simp at h)
  all_goals subst h
  all_goals apply insert_or_report_clean
  all_goals
    first
    | exact clean_push _ _ hc (isUnusedHint_error _ _)
    | exact hc

theorem eval_func_decl_clean (node : Node) (ctx : Ctx) (st st' : Analyzer)
    (h : eval_func_decl node ctx st = some st') (hc : st.clean = true) :
    st'.clean = true := by
  unfold eval_func_decl at h
  repeat' (first | split at h | dsimp only at h)
  all_goals (try simp at h)
  all_goals subst h
  all_goals apply insert_or_report_clean
  all_goals
    first
    | exact clean_push _ _ hc (isUnusedHint_error _ _)
    | exact hc

theorem eval_lambda_clean (node : Node) (st st' : Analyzer)
    (h : eval_lambda node st = some st') (hc : st.clean = true) : st'.clean = true := by
  unfold eval_lambda at h
  repeat' (first | split at h | dsimp only at h)
  all_goals (try simp at h)
  all_goals subst h
  all_goals exact hc

theorem eval_for_loop_clean (node : Node) (st st' : Analyzer)
    (h : eval_for_loop node st = some st') (hc : st.clean = true) : st'.clean = true := by
  unfold eval_for_loop at h
  repeat' (first | split at h | dsimp only at h)
  all_goals (try simp at h)
  all_goals subst h
  all_goals exact hc

theorem eval_match_clean (node : Node) (st st' : Analyzer)
    (h : eval_match node st = some st') (hc : st.clean = true) : st'.clean = true := by
  unfold eval_match at h
  repeat' (first | split at h | dsimp only at h)
  all_goals (try simp at h)
  all_goals subst h
  all_goals
    first
    | exact clean_push _ _ hc (isUnusedHint_emptyMatch _)
    | exact hc

theorem next_unreachable_clean (node : Node) (ctx : Ctx) (st : Analyzer)
    (hc : st.clean = true) : (next_unreachable node ctx st).clean = true := by
  unfold next_unreachable
  repeat' (first | split | dsimp only)
  all_goals
    first
    | exact hc
    | exact clean_push _ _ hc (isUnusedHint_unreachable _)

theorem eval_continue_clean (node : Node) (ctx : Ctx) (st : Analyzer)
    (hc : st.clean = true) : (eval_continue node ctx st).clean = true := by
  unfold eval_continue
  split
  · exact next_unreachable_clean _ _ _ hc
  · exact clean_push _ _ hc (isUnusedHint_error _ _)

theorem eval_break_clean (node : Node) (ctx : Ctx) (st : Analyzer)
    (hc : st.clean = true) : (eval_break node ctx st).clean = true := by
  unfold eval_break
  split
  · exact next_unreachable_clean _ _ _ hc
  · exact clean_push _ _ hc (isUnusedHint_error _ _)

theorem eval_return_clean (node : Node) (ctx : Ctx) (st : Analyzer)
    (hc : st.clean = true) : (eval_return node ctx st).clean = true := by
  unfold eval_return
  split
  · exact next_unreachable_clean _ _ _ hc
  · exact clean_push _ _ hc (isUnusedHint_error _ _)

theorem eval_identifier_clean (node : Node) (ctx : Ctx) (st : Analyzer)
    (hc : st.clean = true) : (eval_identifier node ctx st).clean = true := by
  unfold eval_identifier
  split
  · exact hc
  · exact hc

mutual

theorem evalNode_clean : ∀ (n : Node) (ctx : Ctx) (st st' : Analyzer),
    evalNode n ctx st = some st' → st.clean = true → st'.clean = true
  | .mk info cs, ctx, st, st', h, hc => by
    simp only [evalNode] at h
    have hse := handle_syntax_error_clean (Node.mk info cs) ctx st hc
    revert h
    cases hk : NodeType.fromKind info.kind
    all_goals intro h
    case stmtExpression =>
      have hne := fromKind_ne_stmtExpression info.kind
      rw [hk] at hne
      simp at hne
    case stmtVarDecl =>
      cases hd : eval_var_decl (Node.mk info cs) ctx
          (handle_syntax_error (Node.mk info cs) ctx st) with
      | none => rw [hd] at h; simp at h
      | some st2 =>
        rw [hd] at h
        exact evalChildren_clean cs 0 (Node.mk info cs) ctx st2 st' h
          (eval_var_decl_clean _ _ _ _ hd hse)
    case stmtFuncDecl =>
      cases hd : eval_func_decl (Node.mk info cs) ctx
          (handle_syntax_error (Node.mk info cs) ctx st) with
      | none => rw [hd] at h; simp at h
      | some st2 =>
        rw [hd] at h
        exact evalChildren_clean cs 0 (Node.mk info cs) ctx st2 st' h
          (eval_func_decl_clean _ _ _ _ hd hse)
    case stmtFor =>
      cases hd : eval_for_loop (Node.mk info cs)
          (handle_syntax_error (Node.mk info cs) ctx st) with
      | none => rw [hd] at h; simp at h
      | some st2 =>
        rw [hd] at h
        exact evalChildren_clean cs 0 (Node.mk info cs) ctx st2 st' h
          (eval_for_loop_clean _ _ _ hd hse)
    case exprMatch =>
      cases hd : eval_match (Node.mk info cs)
          (handle_syntax_error (Node.mk info cs) ctx st) with
      | none => rw [hd] at h; simp at h
      | some st2 =>
        rw [hd] at h
        exact evalChildren_clean cs 0 (Node.mk info cs) ctx st2 st' h
          (eval_match_clean _ _ _ hd hse)
    case exprLambda =>
      cases hd : eval_lambda (Node.mk info cs)
          (handle_syntax_error (Node.mk info cs) ctx st) with
      | none => rw [hd] at h; simp at h
      | some st2 =>
        rw [hd] at h
        exact evalChildren_clean cs 0 (Node.mk info cs) ctx st2 st' h
          (eval_lambda_clean _ _ _ hd hse)
    all_goals dsimp only at h
    case stmtContinue =>
      exact evalChildren_clean cs 0 (Node.mk info cs) ctx _ st' h
        (eval_continue_clean _ _ _ hse)
    case stmtBreak =>
      exact evalChildren_clean cs 0 (Node.mk info cs) ctx _ st' h
        (eval_break_clean _ _ _ hse)
    case stmtReturn =>
      exact evalChildren_clean cs 0 (Node.mk info cs) ctx _ st' h
        (eval_return_clean _ _ _ hse)
    case exprIdentifier =>
      exact evalChildren_clean cs 0 (Node.mk info cs) ctx _ st' h
        (eval_identifier_clean _ _ _ hse)
    case exprLiteral =>
      exact evalChildren_clean cs 0 (Node.mk info cs) ctx _ st' h
        (eval_literal_clean _ _ hse)
    all_goals exact evalChildren_clean cs 0 (Node.mk info cs) ctx _ st' h hse

theorem evalChildren_clean : ∀ (cs : List Node) (i : Nat) (p : Node) (ctx : Ctx)
    (st st' : Analyzer),
    evalChildren cs i p ctx st = some st' → st.clean = true → st'.clean = true
  | [], _, _, _, st, st', h, hc => by
    simp only [evalChildren, Option.some.injEq] at h
    subst h
    exact hc
  | c :: rest, i, p, ctx, st, st', h, hc => by
    simp only [evalChildren] at h
    cases hn : evalNode c ((p, i) :: ctx) st with
    | none => rw [hn] at h; simp at h
    | some st2 =>
      rw [hn] at h
      exact evalChildren_clean rest (i + 1) p ctx st2 st' h
        (evalNode_clean c ((p, i) :: ctx) st st2 hn hc)

end

theorem resolve_identifiers_clean (st : Analyzer) (hc : st.clean = true) :
    (resolve_identifiers st).clean = true := by
  unfold resolve_identifiers
  have hgen : ∀ (ids : List Identifier) (st : Analyzer), st.clean = true →
      (ids.foldl
        (fun st ident =>
          let (found, m) := st.declarations.get_mut ident
          if found then st.withDecls m
          else (st.withDecls m).push (error (.undeclared ident.name) ident.range))
        st).clean = true := by
    intro ids
    induction ids with
    | nil => intro st h; exact h
    | cons x ids ih =>
      intro st h
      simp only [List.foldl_cons]
      apply ih
      obtain ⟨found, m⟩ := st.declarations.get_mut x
      cases found
      · exact clean_push _ _ h (isUnusedHint_error _ _)
      · exact h
  exact hgen st.identifiers st hc

/-- After a full pass, the `Unused`-shaped diagnostics of the published list
are exactly the trailing block the unused pass appends: one hint at
`name_range` per still-unused declaration not named `_` or `self`, in bucket
order, and nothing anywhere else in the list. -/
theorem analyze_unused_hints (root : Node) (res : AnalyzeResult)
    (h : analyze root = some res) :
    res.diagnostics.filter isUnusedHint =
      ((res.declarations.get_unused.filter
        (fun d => d.name != "_" && d.name != "self")).map
        (fun d => hint (.unused d.name) d.name_range)) ∧
    ∃ pre, pre.all (fun d => !isUnusedHint d) = true ∧
      res.diagnostics = pre ++
        ((res.declarations.get_unused.filter
          (fun d => d.name != "_" && d.name != "self")).map
          (fun d => hint (.unused d.name) d.name_range)) := by
  unfold analyze at h
  cases hw : walkTree root with
  | none => rw [hw] at h; simp at h
  | some st =>
    rw [hw] at h
    simp only [Option.some.injEq] at h
    subst h
    have hwclean : st.clean = true := by
      unfold walkTree at hw
      exact evalChildren_clean root.children 0 root [] ⟨[], DeclarationMap.new, []⟩ st hw rfl
    have hclean := resolve_identifiers_clean st hwclean
    rw [report_unused_eq]
    have hall : ∀ d ∈ (resolve_identifiers st).diagnostics, ¬ isUnusedHint d = true := by
      intro d hd
      have := (List.all_eq_true.mp hclean) d hd
      simpa using this
    have hblock : ∀ a ∈ (((resolve_identifiers st).declarations.get_unused.filter
        (fun d => d.name != "_" && d.name != "self")).map
        (fun d => hint (.unused d.name) d.name_range)), isUnusedHint a = true := by
      intro a ha
      obtain ⟨d, _, rfl⟩ := List.mem_map.mp ha
      exact isUnusedHint_unused _ _
    constructor
    · dsimp only
      rw [List.filter_append, List.filter_eq_nil_iff.mpr hall,
        List.filter_eq_self.mpr hblock, List.nil_append]
    · exact ⟨(resolve_identifiers st).diagnostics, hclean, rfl⟩

/-- C7: after a full pass the `Unused`-shaped diagnostics of the published
list are exactly one `Unused(name)` hint at `name_range` per still-unused
declaration not named `_` or `self` (in bucket order), appearing as the
trailing block after a prefix that contains no `Unused`-shaped diagnostic
at all — so used declarations and `_`/`self` get no `Unused` hint anywhere;
`get_unused` holds exactly the declarations with `used = false`; and a
resolved reference leaves a visible declaration marked used in its
bucket. -/
theorem c7_unused_report_spec :
    (∀ (root : Node) (res : AnalyzeResult), analyze root = some res →
      res.diagnostics.filter isUnusedHint =
        ((res.declarations.get_unused.filter
          (fun d => d.name != "_" && d.name != "self")).map
          (fun d => hint (.unused d.name) d.name_range)) ∧
      ∃ pre, pre.all (fun d => !isUnusedHint d) = true ∧
        res.diagnostics = pre ++
          ((res.declarations.get_unused.filter
            (fun d => d.name != "_" && d.name != "self")).map
            (fun d => hint (.unused d.name) d.name_range))) ∧
    (∀ (m : DeclarationMap) (d : Declaration),
      d ∈ m.get_unused ↔ (d ∈ m.allDecls ∧ d.used = false)) ∧
    (∀ (m : DeclarationMap) (i : Identifier), (m.get_mut i).fst = true →
      ∃ d, d ∈ ((m.get_mut i).snd.lookup i.name).getD [] ∧
        is_declaration_at d i.range.«end» = true ∧ d.used = true) :=
  ⟨analyze_unused_hints, mem_get_unused, get_mut_marks⟩

/-- C7 (witness): on `set x = x;` the `Unused`-shaped diagnostics are
exactly the trailing `Unused` block, the rest of the list holds none, and
resolving `print` against the seeded map marks the builtin used. -/
theorem c7_unused_report_witness :
    (c6Res.diagnostics.filter isUnusedHint =
      ((c6Res.declarations.get_unused.filter
        (fun d => d.name != "_" && d.name != "self")).map
        (fun d => hint (.unused d.name) d.name_range)) ∧
     ∃ pre, pre.all (fun d => !isUnusedHint d) = true ∧
       c6Res.diagnostics = pre ++
         ((c6Res.declarations.get_unused.filter
           (fun d => d.name != "_" && d.name != "self")).map
           (fun d => hint (.unused d.name) d.name_range))) ∧
    (∃ d, d ∈ ((DeclarationMap.new.get_mut ⟨"print", ⟨⟨0, 0⟩, ⟨0, 5⟩⟩⟩).snd.lookup "print").getD [] ∧
      is_declaration_at d (⟨⟨0, 0⟩, ⟨0, 5⟩⟩ : Range).«end» = true ∧ d.used = true) :=
  ⟨c7_unused_report_spec.1 c6Tree c6Res (by decide),
   c7_unused_report_spec.2.2 DeclarationMap.new ⟨"print", ⟨⟨0, 0⟩, ⟨0, 5⟩⟩⟩ (by decide)⟩

/-- C8 (counterexample): with two applicable declarations of `x` where the
second has the later visibility start but the earlier end, `get_nearest`
returns the first — it selects by latest `range.end`, not latest visibility
start as claimed. -/
theorem c8_get_nearest_latest_start_counterexample :
    get_nearest [c8d1, c8d2] ⟨0, 30⟩ = some c8d1 ∧
    is_declaration_at c8d1 ⟨0, 30⟩ = true ∧
    is_declaration_at c8d2 ⟨0, 30⟩ = true ∧
    Position.ltb c8d1.range.start c8d2.range.start = true := by decide

/-- C8 (amended): the completion query returns at most one declaration per
bucket — `get_declared_at` is exactly one `get_nearest` result per bucket —
and among the applicable declarations of a bucket `get_nearest` returns one
whose `range.end` (not visibility start) is maximal, the earliest one on
ties. -/
theorem c8_completion_nearest_by_end_spec :
    (∀ (ds : List Declaration) (pos : Position),
      (get_nearest ds pos = none → ∀ d ∈ ds, is_declaration_at d pos = false) ∧
      (∀ n, get_nearest ds pos = some n →
        n ∈ ds ∧ is_declaration_at n pos = true ∧
          ∀ d ∈ ds, is_declaration_at d pos = true →
            Position.ltb n.range.«end» d.range.«end» = false)) ∧
    (∀ (m : DeclarationMap) (pos : Position),
      m.get_declared_at pos = m.values.filterMap (fun ds => get_nearest ds pos)) :=
  ⟨get_nearest_spec, get_declared_at_eq⟩

/-- C8 (witness): the concrete two-declaration bucket instantiates the
maximal-end property. -/
theorem c8_completion_nearest_by_end_witness :
    c8d1 ∈ [c8d1, c8d2] ∧ is_declaration_at c8d1 ⟨0, 30⟩ = true ∧
      ∀ d ∈ [c8d1, c8d2], is_declaration_at d ⟨0, 30⟩ = true →
        Position.ltb c8d1.range.«end» d.range.«end» = false :=
  ((c8_completion_nearest_by_end_spec.1 [c8d1, c8d2] ⟨0, 30⟩).2 c8d1 (by decide))

/-- C9 (counterexample): two runs of the analysis on the same unchanged tree,
whose fresh `HashMap`s iterate the same buckets in two different (but equally
legal) orders, publish different diagnostics lists: the two `Unused` hints of
`set a = 1; set b = 1;` swap. -/
theorem c9_iteration_order_counterexample :
    c9KeysA.Perm c9KeysB ∧
    (analyzeWith c9KeysA c9Tree == analyzeWith c9KeysB c9Tree) = false :=
  ⟨List.isPerm_iff.mp (by decide), by decide⟩

/-- C9 (amended): two runs on the same unchanged `(source, tree)` produce
structurally identical declaration maps, and diagnostics lists that are equal
up to a permutation of the trailing `Unused` hints; they are byte-for-byte
identical whenever the two runs iterate the map in the same order — which a
fresh `HashMap` per run does not guarantee. -/
theorem c9_deterministic_up_to_unused_order :
    ∀ (root : Node) (σ1 σ2 : List String) (r1 r2 : AnalyzeResult),
      σ1.Perm σ2 →
      analyzeWith σ1 root = some r1 → analyzeWith σ2 root = some r2 →
      r1.declarations = r2.declarations ∧ r1.diagnostics.Perm r2.diagnostics ∧
        (σ1 = σ2 → r1 = r2) := by
  intro root σ1 σ2 r1 r2 hperm h1 h2
  rw [analyzeWith_eq] at h1 h2
  cases hw : walkTree root with
  | none => rw [hw] at h1; simp at h1
  | some st =>
    rw [hw] at h1 h2
    simp only [Option.map_some', Option.some.injEq] at h1 h2
    subst h1
    subst h2
    refine ⟨rfl, ?_, ?_⟩
    · dsimp only
      exact (((get_unused_in_perm _ hperm).filter _).map _).append_left _
    · intro he
      subst he
      rfl

/-- C9 (witness): the amended statement instantiated at the concrete tree and
the two concrete iteration orders. -/
theorem c9_deterministic_witness :
    c9ResA.declarations = c9ResB.declarations ∧
    c9ResA.diagnostics.Perm c9ResB.diagnostics ∧
    (c9KeysA = c9KeysB → c9ResA = c9ResB) :=
  c9_deterministic_up_to_unused_order c9Tree c9KeysA c9KeysB c9ResA c9ResB
    (List.isPerm_iff.mp (by decide)) (by decide) (by decide)

/-- Inserting a scope-less declaration whose name is a seeded builtin's name
is always rejected without mutation. -/
theorem insert_into_new_scopeless (d : Declaration)
    (hn : d.name ∈ DeclarationMap.new.keys) (hs : d.scope = none) :
    DeclarationMap.new.insert d = (false, DeclarationMap.new) := by
  simp only [DeclarationMap.new, DeclarationMap.keys, BUILTIN_FUNCTION, List.map_cons,
    List.map_nil, List.mem_cons, List.not_mem_nil, or_false] at hn
  rcases hn with hname | hname | hname | hname | hname | hname | hname | hname | hname |
    hname | hname | hname <;>
    exact insert_eq_dup DeclarationMap.new d _ (by rw [hname]; rfl)
      (by simp [Declaration.peq, Declaration.fromBuiltin, hname, hs])

/-- Inserting a declaration with a builtin's name but a block scope
succeeds. -/
theorem insert_into_new_scoped (d : Declaration)
    (hn : d.name ∈ DeclarationMap.new.keys) (s : Range) (hs : d.scope = some s) :
    (DeclarationMap.new.insert d).fst = true := by
  simp only [DeclarationMap.new, DeclarationMap.keys, BUILTIN_FUNCTION, List.map_cons,
    List.map_nil, List.mem_cons, List.not_mem_nil, or_false] at hn
  rcases hn with hname | hname | hname | hname | hname | hname | hname | hname | hname |
    hname | hname | hname <;>
    rw [insert_eq_push DeclarationMap.new d _ (by rw [hname]; rfl)
      (by simp [Declaration.peq, Declaration.fromBuiltin, hname, hs])]

/-- C10: the map is seeded with every builtin as a scope-less declaration, so
a module-level (scope-less) user declaration with a builtin's name is always
rejected — on `set print = 1;` the analysis leaves the map unchanged and
emits `Redeclaration("print")` — while the same name inside a block (a `some`
scope) inserts successfully. -/
theorem c10_builtin_seed_redeclaration :
    (∀ name : String, name ∈ DeclarationMap.new.keys →
      ∀ (k : DeclarationKind) (r nr : Range) (p : Bool),
        ((DeclarationMap.new.insert (Declaration.new name k r nr none p)).fst = false ∧
         (DeclarationMap.new.insert (Declaration.new name k r nr none p)).snd =
           DeclarationMap.new) ∧
        (∀ s : Range,
          (DeclarationMap.new.insert (Declaration.new name k r nr (some s) p)).fst =
            true)) ∧
    (analyze c10Tree).map (fun r => r.diagnostics) =
      some [error (.redeclaration "print") ⟨⟨0, 4⟩, ⟨0, 9⟩⟩] ∧
    (analyze c10Tree).map (fun r => r.declarations) = some DeclarationMap.new := by
  refine ⟨?_, by decide, by decide⟩
  intro name hname k r nr p
  constructor
  · have h := insert_into_new_scopeless (Declaration.new name k r nr none p)
      (by simpa [Declaration.new] using hname) (by simp [Declaration.new])
    exact ⟨by rw [h], by rw [h]⟩
  · intro s
    exact insert_into_new_scoped (Declaration.new name k r nr (some s) p)
      (by simpa [Declaration.new] using hname) s (by simp [Declaration.new])

/-- C10 (witness): the concrete builtin name `print`, scope-less and
scoped. -/
theorem c10_builtin_seed_redeclaration_witness :
    (DeclarationMap.new.insert
      (Declaration.new "print" .variable NIL_RANGE NIL_RANGE none false)).fst = false ∧
    (DeclarationMap.new.insert
      (Declaration.new "print" .variable NIL_RANGE NIL_RANGE
        (some ⟨⟨0, 0⟩, ⟨0, 9⟩⟩) false)).fst = true :=
  ⟨((c10_builtin_seed_redeclaration.1 "print" (by decide) .variable NIL_RANGE NIL_RANGE
      false).1).1,
   (c10_builtin_seed_redeclaration.1 "print" (by decide) .variable NIL_RANGE NIL_RANGE
      false).2 ⟨⟨0, 0⟩, ⟨0, 9⟩⟩⟩

end Ice
